import Mathlib

/-!
Shallow embedding of the strategy-calculation engine of the
paris-transport-2026 repository.

The repository contains two near-duplicate revisions of the engine:

* `src/src/types.ts` — `calculateStrategies` (called "revision A" below);
* a second revision embedded in `src/App.tsx` (after the document
  separator) with diverging card-fee attribution, an epsilon/priority
  tie-breaking comparator and post-sort `isRecommended` marking
  (called "revision B" below, embedded as `calculateStrategiesApp`).

Modelling choices:
* calendar dates are integers (day numbers); `getDay` is `d % 7` with the
  JavaScript convention 0 = Sunday, 1 = Monday, …, 6 = Saturday, matching
  date-fns `getDay`;
* money is `ℤ`, counted in euro cents (the TS code uses floating-point
  euros, but every fare of the table is an exact number of cents and the
  engine only adds, scales by integer trip counts, takes minima and
  compares, so integer cents are the exact semantics; the revision-B
  comparator epsilon 0.01 euro becomes 1 cent);
* Korean pass-type label strings become an inductive type `PassType`,
  one constructor per distinct label of the source;
* JavaScript `Array.prototype.sort` with a comparator is a stable sort;
  it is embedded as insertion sort by the comparator's "a may precede b"
  relation (`cmp a b ≤ 0`).
-/

namespace ParisTransport

inductive CardType where
  | Mobile
  | Physical
deriving DecidableEq, Repr

inductive BagOption where
  | Backpack
  | BackpackCarrier
  | MultiCarrier
deriving DecidableEq, Repr

/-- Pass-type labels of the breakdown entries.  Each constructor stands for
one distinct label string produced by the source:
`airportTaxi` = the airport-taxi label, `airportRER` = the airport-RER label,
`airportREReasy` = the airport-RER-with-Easy-card label,
`singleTickets n` = the "n single tickets" label, `jourPass` = the day-pass
label, `semaine` = the week-pass label, `semaineStart` = the
week-pass-start-with-Decouverte label, `taxiPlusSemaine` = the
airport-taxi-plus-week-pass label, `singleOrJour` = the
single-or-day-pass-combination label. -/
inductive PassType where
  | airportTaxi
  | airportRER
  | airportREReasy
  | singleTickets (n : ℕ)
  | jourPass
  | semaine
  | semaineStart
  | taxiPlusSemaine
  | singleOrJour
deriving DecidableEq, Repr

structure DailyDetail where
  date : ℤ
  passType : PassType
  cost : ℤ
deriving DecidableEq, Repr

structure TravelInput where
  arrivalDate : ℤ
  departureDate : ℤ
  bagOption : BagOption
  dailyTrips : ℕ
  cardType : CardType
deriving DecidableEq, Repr

inductive StrategyName where
  | single
  | daily
  | hybrid
deriving DecidableEq, Repr

structure StrategyResult where
  name : StrategyName
  totalCost : ℤ
  dailyBreakdown : List DailyDetail
  isRecommended : Bool
deriving DecidableEq, Repr

-- fares in euro cents: 2.55, 12.30, 32.40, 14.00, 55.00 euros
def PASS_PRICES.SINGLE : ℤ := 255

def PASS_PRICES.JOUR : ℤ := 1230

def PASS_PRICES.SEMAINE : ℤ := 3240

def PASS_PRICES.AIRPORT_RER : ℤ := 1400

def PASS_PRICES.AIRPORT_TAXI : ℤ := 5500

-- card fees in euro cents: 2.00, 5.00, 0.00 euros
def CARD_FEES.Easy : ℤ := 200

def CARD_FEES.Decouverte : ℤ := 500

def CARD_FEES.Mobile : ℤ := 0

/-- `getDay` of date-fns: day of week, 0 = Sunday … 6 = Saturday.  Day
numbers are aligned so that a day number `d` with `d % 7 = 1` is a Monday. -/
def getDay (d : ℤ) : ℤ := d % 7

/-- `differenceInDays(end, start) + 1` — the inclusive day count. -/
def totalDays (inp : TravelInput) : ℤ := inp.departureDate - inp.arrivalDate + 1

/-- `Array.from({ length: totalDays }, (_, i) => addDays(start, i))`. -/
def tripDays (inp : TravelInput) : List ℤ :=
  (List.range (totalDays inp).toNat).map (fun (i : ℕ) => inp.arrivalDate + (i : ℤ))

def useTaxi (inp : TravelInput) : Bool := inp.bagOption = BagOption.MultiCarrier

def airportTransferCost (inp : TravelInput) : ℤ :=
  if useTaxi inp then PASS_PRICES.AIRPORT_TAXI else PASS_PRICES.AIRPORT_RER

/-- `Math.min(input.dailyTrips * PASS_PRICES.SINGLE, PASS_PRICES.JOUR)` —
the per-day cost used throughout the hybrid strategy. -/
def minDayCost (inp : TravelInput) : ℤ :=
  min ((inp.dailyTrips : ℤ) * PASS_PRICES.SINGLE) PASS_PRICES.JOUR

/-- `acc + curr.cost` reduce with initial value 0. -/
def sumCosts (l : List DailyDetail) : ℤ := l.foldl (fun acc e => acc + e.cost) 0

/-- JavaScript `.map((x, idx) => f idx x)`, with the index threaded
explicitly (`mapIdxFrom f i l` maps with indices `i, i+1, …`). -/
def mapIdxFrom (f : ℕ → α → β) : ℕ → List α → List β
  | _, [] => []
  | i, a :: as => f i a :: mapIdxFrom f (i + 1) as

/-- Strategy 1 breakdown: airport days (first and last index) carry the
airport transfer; other days carry `dailyTrips × SINGLE`. -/
def singleBreakdown (inp : TravelInput) : List DailyDetail :=
  mapIdxFrom (fun i day =>
    if i = 0 ∨ i = (tripDays inp).length - 1 then
      ⟨day, if useTaxi inp then PassType.airportTaxi else PassType.airportRER,
        airportTransferCost inp⟩
    else
      ⟨day, PassType.singleTickets inp.dailyTrips,
        (inp.dailyTrips : ℤ) * PASS_PRICES.SINGLE⟩) 0 (tripDays inp)

/-- Strategy 1 total of revision A: breakdown sum plus the Easy card fee
for physical cards. -/
def singleTotal (inp : TravelInput) : ℤ :=
  sumCosts (singleBreakdown inp) +
    (if inp.cardType = CardType.Physical then CARD_FEES.Easy else 0)

/-- Strategy 2 breakdown: airport days as in strategy 1, other days carry
the flat day-pass price. -/
def dailyBreakdown (inp : TravelInput) : List DailyDetail :=
  mapIdxFrom (fun i day =>
    if i = 0 ∨ i = (tripDays inp).length - 1 then
      ⟨day, if useTaxi inp then PassType.airportTaxi else PassType.airportRER,
        airportTransferCost inp⟩
    else
      ⟨day, PassType.jourPass, PASS_PRICES.JOUR⟩) 0 (tripDays inp)

/-- Strategy 2 total of revision A. -/
def dailyTotal (inp : TravelInput) : ℤ :=
  sumCosts (dailyBreakdown inp) +
    (if inp.cardType = CardType.Physical then CARD_FEES.Easy else 0)

/-- Week grouping: a new week starts at each Monday after the first day
(`if (i > 0 && getDay(day) === 1) { weeks.push(currentWeek); ... }`).
`splitWeeksGo cur l` processes the remaining days `l` with the current
week `cur` already begun. -/
def splitWeeksGo (cur : List ℤ) : List ℤ → List (List ℤ)
  | [] => [cur]
  | d :: rest =>
    if getDay d = 1 then cur :: splitWeeksGo [d] rest
    else splitWeeksGo (cur ++ [d]) rest

def splitWeeks : List ℤ → List (List ℤ)
  | [] => [[]]
  | d :: rest => splitWeeksGo [d] rest

/-- Physical-card first-week guard:
`startDayOfWeek >= 1 && startDayOfWeek <= 3 && restOfWeek.length > 0`. -/
def canBuySemainePhys (w0 : ℤ) (restOfWeek : List ℤ) : Bool :=
  decide (1 ≤ getDay w0) && decide (getDay w0 ≤ 3) && !restOfWeek.isEmpty

/-- Mobile-card guard:
`isFirstWeek ? (startDayOfWeek >= 1 && startDayOfWeek <= 4) : true`. -/
def canBuyMobile (isFirstWeek : Bool) (w0 : ℤ) : Bool :=
  if isFirstWeek then decide (1 ≤ getDay w0) && decide (getDay w0 ≤ 4) else true

/-- Week-pass entries of the physical first week (over `restOfWeek`):
first span day carries the full week-pass price and the
start-with-Decouverte label, later days zero; a trip-final taxi day is
relabelled taxi-plus-week-pass (its cost pattern unchanged). -/
def passEntriesPhysFirst (inp : TravelInput) (restOfWeek : List ℤ) : List DailyDetail :=
  mapIdxFrom (fun idx d =>
    ⟨d,
      if d = inp.departureDate ∧ useTaxi inp then PassType.taxiPlusSemaine
      else if idx = 0 then PassType.semaineStart else PassType.semaine,
      if idx = 0 then PASS_PRICES.SEMAINE else 0⟩) 0 restOfWeek

/-- Week-pass entries of a later physical week (over the whole week). -/
def passEntriesPhysLater (inp : TravelInput) (weekDays : List ℤ) : List DailyDetail :=
  mapIdxFrom (fun idx d =>
    ⟨d,
      if d = inp.departureDate ∧ useTaxi inp then PassType.taxiPlusSemaine
      else PassType.semaine,
      if idx = 0 then PASS_PRICES.SEMAINE else 0⟩) 0 weekDays

/-- Per-day entries of the physical path: a trip-final day carries the
airport transfer; any other day the cheaper of per-ride total and day
pass. -/
def perDayEntriesPhys (inp : TravelInput) (l : List ℤ) : List DailyDetail :=
  l.map (fun d =>
    if d = inp.departureDate then
      ⟨d, if useTaxi inp then PassType.airportTaxi else PassType.airportRER,
        airportTransferCost inp⟩
    else ⟨d, PassType.singleOrJour, minDayCost inp⟩)

/-- Physical first week: the arrival day is always paid as an airport
transfer on the Easy card, then the rest of the week is either covered by
a week pass (if the guard holds and the pass beats the per-day
alternative) or paid per day.  Returns the entries and whether a pass was
bought. -/
def weekEntriesPhysFirst (inp : TravelInput) : List ℤ → List DailyDetail × Bool
  | [] => ([], false)
  | w0 :: restOfWeek =>
    let firstEntry : DailyDetail :=
      ⟨w0, if useTaxi inp then PassType.airportTaxi else PassType.airportREReasy,
        airportTransferCost inp⟩
    if canBuySemainePhys w0 restOfWeek then
      -- semaineCost = SEMAINE + Decouverte; alternatives = Σ min(trips·SINGLE, JOUR)
      if PASS_PRICES.SEMAINE + CARD_FEES.Decouverte <
          (restOfWeek.length : ℤ) * minDayCost inp then
        (firstEntry :: passEntriesPhysFirst inp restOfWeek, true)
      else (firstEntry :: perDayEntriesPhys inp restOfWeek, false)
    else (firstEntry :: perDayEntriesPhys inp restOfWeek, false)

/-- Later physical week: week pass iff its effective cost (`SEMAINE`, plus
the Decouverte fee when no pass was bought yet) beats the per-day
alternative. -/
def weekEntriesPhysLater (inp : TravelInput) (decouverteRequired : Bool)
    (weekDays : List ℤ) : List DailyDetail × Bool :=
  if (if decouverteRequired then PASS_PRICES.SEMAINE
      else PASS_PRICES.SEMAINE + CARD_FEES.Decouverte) <
      (weekDays.length : ℤ) * minDayCost inp then
    (passEntriesPhysLater inp weekDays, true)
  else (perDayEntriesPhys inp weekDays, false)

/-- Week-pass entries of a mobile week: first span day carries the pass
price, later days zero; a taxi transfer on the trip's first or last day is
added on top, while a rail transfer on such a day is absorbed by the
pass. -/
def passEntriesMobile (inp : TravelInput) (weekDays : List ℤ) : List DailyDetail :=
  mapIdxFrom (fun idx d =>
    if useTaxi inp ∧ (d = inp.arrivalDate ∨ d = inp.departureDate) then
      ⟨d, PassType.taxiPlusSemaine,
        PASS_PRICES.AIRPORT_TAXI + (if idx = 0 then PASS_PRICES.SEMAINE else 0)⟩
    else ⟨d, PassType.semaine, if idx = 0 then PASS_PRICES.SEMAINE else 0⟩) 0 weekDays

/-- Per-day entries of the mobile path: the trip's first or last day
carries the airport transfer, other days the cheaper per-day cost. -/
def perDayEntriesMobile (inp : TravelInput) (l : List ℤ) : List DailyDetail :=
  l.map (fun d =>
    if d = inp.arrivalDate ∨ d = inp.departureDate then
      ⟨d, if useTaxi inp then PassType.airportTaxi else PassType.airportRER,
        airportTransferCost inp⟩
    else ⟨d, PassType.singleOrJour, minDayCost inp⟩)

/-- Mobile week: week pass iff the guard holds and `SEMAINE` beats the
per-day alternative. -/
def weekEntriesMobile (inp : TravelInput) (isFirstWeek : Bool) :
    List ℤ → List DailyDetail × Bool
  | [] => ([], false)
  | w0 :: rest =>
    if canBuyMobile isFirstWeek w0 &&
        decide (PASS_PRICES.SEMAINE < ((w0 :: rest).length : ℤ) * minDayCost inp) then
      (passEntriesMobile inp (w0 :: rest), true)
    else (perDayEntriesMobile inp (w0 :: rest), false)

/-- Entries and pass-bought flag for one week, dispatching on card type,
week position and the accumulated Decouverte flag. -/
def weekEntries (inp : TravelInput) (isFirstWeek decouverteRequired : Bool)
    (weekDays : List ℤ) : List DailyDetail × Bool :=
  if inp.cardType = CardType.Physical then
    if isFirstWeek then weekEntriesPhysFirst inp weekDays
    else weekEntriesPhysLater inp decouverteRequired weekDays
  else weekEntriesMobile inp isFirstWeek weekDays

/-- Mutable state of the hybrid `forEach` loop. -/
structure HybridState where
  breakdown : List DailyDetail
  decouverteRequired : Bool
  semaineUsed : Bool
deriving DecidableEq, Repr

/-- One iteration of the hybrid week loop.  On the physical path a
purchased pass sets both flags; on the mobile path it sets only
`semaineUsed` (the source never sets `decouverteRequired` there). -/
def hybridStep (inp : TravelInput) (isFirstWeek : Bool) (st : HybridState)
    (weekDays : List ℤ) : HybridState :=
  let p := weekEntries inp isFirstWeek st.decouverteRequired weekDays
  ⟨st.breakdown ++ p.1,
    st.decouverteRequired || (decide (inp.cardType = CardType.Physical) && p.2),
    st.semaineUsed || p.2⟩

/-- The whole hybrid loop: first week with `isFirstWeek = true`, then the
remaining weeks folded with `isFirstWeek = false`. -/
def hybridRun (inp : TravelInput) : HybridState :=
  match splitWeeks (tripDays inp) with
  | [] => ⟨[], false, false⟩
  | w0 :: ws => ws.foldl (hybridStep inp false) (hybridStep inp true ⟨[], false, false⟩ w0)

def hybridBreakdown (inp : TravelInput) : List DailyDetail := (hybridRun inp).breakdown

/-- Strategy 3 total of revision A: breakdown sum plus, for physical
cards, the Easy fee always and the Decouverte fee when required. -/
def hybridTotal (inp : TravelInput) : ℤ :=
  sumCosts (hybridBreakdown inp) +
    (if inp.cardType = CardType.Physical then
      CARD_FEES.Easy +
        (if (hybridRun inp).decouverteRequired then CARD_FEES.Decouverte else 0)
    else 0)

/-- Stable insertion of `x` before the first element `y` with `le x y`
(JS stable sort semantics for a comparator whose "may precede" relation
is `le`). -/
def insertStable (le : α → α → Bool) (x : α) : List α → List α
  | [] => [x]
  | y :: ys => if le x y then x :: y :: ys else y :: insertStable le x ys

def sortStable (le : α → α → Bool) : List α → List α
  | [] => []
  | x :: xs => insertStable le x (sortStable le xs)

/-- Revision A comparator `(a, b) => a.totalCost - b.totalCost` as a
"may precede" relation: `cmp a b ≤ 0`. -/
def cmpLeA (a b : StrategyResult) : Bool := decide (a.totalCost ≤ b.totalCost)

/-- Revision A `calculateStrategies` of `src/src/types.ts`: empty for
non-positive trip length, otherwise the three strategies sorted stably by
total cost, with `isRecommended` set (before sorting) on the hybrid
strategy only — the optional field is absent, i.e. false, on the other
two. -/
def calculateStrategies (inp : TravelInput) : List StrategyResult :=
  if totalDays inp ≤ 0 then []
  else
    sortStable cmpLeA
      [⟨StrategyName.single, singleTotal inp, singleBreakdown inp, false⟩,
       ⟨StrategyName.daily, dailyTotal inp, dailyBreakdown inp, false⟩,
       ⟨StrategyName.hybrid, hybridTotal inp, hybridBreakdown inp, true⟩]

/-- Revision B fee condition for strategies 1 and 2:
`cardType === 'Physical' && (!useTaxi || dailyTrips > 0)` — with a taxi
and no in-city trips, no Easy card is needed. -/
def needsEasy (inp : TravelInput) : Bool :=
  decide (inp.cardType = CardType.Physical) && (!useTaxi inp || decide (0 < inp.dailyTrips))

/-- Strategy 1 total of revision B. -/
def singleTotalApp (inp : TravelInput) : ℤ :=
  sumCosts (singleBreakdown inp) + (if needsEasy inp then CARD_FEES.Easy else 0)

/-- Strategy 2 total of revision B. -/
def dailyTotalApp (inp : TravelInput) : ℤ :=
  sumCosts (dailyBreakdown inp) + (if needsEasy inp then CARD_FEES.Easy else 0)

/-- Revision B `usesEasy` test on one entry:
`d.passType.includes("RER") || d.passType.includes("1회권/일일권")` — of the
source's labels, exactly the two airport-RER labels contain "RER" and
exactly the single-or-day-pass-combination label contains the
other substring. -/
def passTypeUsesEasy : PassType → Bool
  | PassType.airportRER => true
  | PassType.airportREReasy => true
  | PassType.singleOrJour => true
  | _ => false

def usesEasy (l : List DailyDetail) : Bool := l.any (fun e => passTypeUsesEasy e.passType)

/-- Revision B hybrid card fee: for physical cards, the Easy fee when some
breakdown entry used RER or per-day pricing, plus the Decouverte fee when
required; mobile cards pay nothing. -/
def hybridCardFeeApp (inp : TravelInput) : ℤ :=
  if inp.cardType = CardType.Physical then
    (if usesEasy (hybridBreakdown inp) then CARD_FEES.Easy else 0) +
      (if (hybridRun inp).decouverteRequired then CARD_FEES.Decouverte else 0)
  else 0

/-- Strategy 3 total of revision B. -/
def hybridTotalApp (inp : TravelInput) : ℤ :=
  sumCosts (hybridBreakdown inp) + hybridCardFeeApp inp

/-- Revision B priority record:
`{ "1회권 조합": 1, "일일권 조합": 2, "최적 하이브리드": 3 }`. -/
def prio : StrategyName → ℕ
  | StrategyName.single => 1
  | StrategyName.daily => 2
  | StrategyName.hybrid => 3

/-- Revision B comparator as a "may precede" relation: costs differing by
more than 1 cent (0.01 euro in the source) compare by cost, otherwise by
the fixed priority. -/
def cmpLeB (a b : StrategyResult) : Bool :=
  if 1 < |a.totalCost - b.totalCost| then decide (a.totalCost ≤ b.totalCost)
  else decide (prio a.name ≤ prio b.name)

/-- Revision B `calculateStrategies` (the copy embedded in `src/App.tsx`):
the three strategies (no `isRecommended` field set, i.e. false) are sorted
by the epsilon/priority comparator, then the first element of the sorted
list — and only it — is marked recommended. -/
def calculateStrategiesApp (inp : TravelInput) : List StrategyResult :=
  if totalDays inp ≤ 0 then []
  else
    mapIdxFrom (fun idx s => { s with isRecommended := idx = 0 }) 0
      (sortStable cmpLeB
        [⟨StrategyName.single, singleTotalApp inp, singleBreakdown inp, false⟩,
         ⟨StrategyName.daily, dailyTotalApp inp, dailyBreakdown inp, false⟩,
         ⟨StrategyName.hybrid, hybridTotalApp inp, hybridBreakdown inp, false⟩])

/-! Basic lemmas about the helper functions. -/

theorem sumCosts_eq (l : List DailyDetail) :
    sumCosts l = (l.map DailyDetail.cost).sum := by
  have h : ∀ (l : List DailyDetail) (a : ℤ),
      l.foldl (fun acc e => acc + e.cost) a = a + (l.map DailyDetail.cost).sum := by
    intro l
    induction l with
    | nil => intro a; simp
    | cons x xs ih => intro a; simp [List.foldl_cons, ih, add_assoc]
  simpa [sumCosts] using h l 0

theorem sumCosts_nil : sumCosts [] = 0 := rfl

theorem sumCosts_cons (e : DailyDetail) (l : List DailyDetail) :
    sumCosts (e :: l) = e.cost + sumCosts l := by
  simp [sumCosts_eq]

theorem sumCosts_append (l₁ l₂ : List DailyDetail) :
    sumCosts (l₁ ++ l₂) = sumCosts l₁ + sumCosts l₂ := by
  simp [sumCosts_eq]

theorem mapIdxFrom_nil (f : ℕ → α → β) (i : ℕ) : mapIdxFrom f i [] = [] := rfl

theorem mapIdxFrom_cons (f : ℕ → α → β) (i : ℕ) (a : α) (l : List α) :
    mapIdxFrom f i (a :: l) = f i a :: mapIdxFrom f (i + 1) l := rfl

theorem length_mapIdxFrom (f : ℕ → α → β) :
    ∀ (i : ℕ) (l : List α), (mapIdxFrom f i l).length = l.length := by
  intro i l
  induction l generalizing i with
  | nil => rfl
  | cons a as ih => simp [mapIdxFrom_cons, ih]

theorem map_mapIdxFrom (f : ℕ → α → β) (g : β → γ) :
    ∀ (i : ℕ) (l : List α),
      (mapIdxFrom f i l).map g = mapIdxFrom (fun j a => g (f j a)) i l := by
  intro i l
  induction l generalizing i with
  | nil => rfl
  | cons a as ih => simp [mapIdxFrom_cons, ih]

theorem mapIdxFrom_id_of (f : ℕ → α → α) (h : ∀ j a, f j a = a) :
    ∀ (i : ℕ) (l : List α), mapIdxFrom f i l = l := by
  intro i l
  induction l generalizing i with
  | nil => rfl
  | cons a as ih => simp [mapIdxFrom_cons, h, ih]

theorem mem_mapIdxFrom (f : ℕ → α → β) :
    ∀ (i : ℕ) (l : List α) (b : β), b ∈ mapIdxFrom f i l → ∃ j a, a ∈ l ∧ b = f j a := by
  intro i l
  induction l generalizing i with
  | nil => intro b hb; simp [mapIdxFrom_nil] at hb
  | cons a as ih =>
    intro b hb
    rw [mapIdxFrom_cons] at hb
    rcases List.mem_cons.mp hb with hb | hb
    · exact ⟨i, a, List.mem_cons_self _ _, hb⟩
    · obtain ⟨j, x, hx, hbx⟩ := ih (i + 1) b hb
      exact ⟨j, x, List.mem_cons_of_mem _ hx, hbx⟩

/-! Lemmas about the week grouping. -/

theorem splitWeeksGo_join (cur : List ℤ) (l : List ℤ) :
    (splitWeeksGo cur l).flatten = cur ++ l := by
  induction l generalizing cur with
  | nil => simp [splitWeeksGo]
  | cons d rest ih =>
    by_cases h : getDay d = 1
    · simp [splitWeeksGo, h, ih]
    · simp [splitWeeksGo, h, ih]

theorem splitWeeks_join (l : List ℤ) : (splitWeeks l).flatten = l := by
  cases l with
  | nil => simp [splitWeeks]
  | cons d rest => simp [splitWeeks, splitWeeksGo_join]

theorem splitWeeksGo_ne_nil (cur : List ℤ) (l : List ℤ) (hcur : cur ≠ []) :
    ∀ w ∈ splitWeeksGo cur l, w ≠ [] := by
  induction l generalizing cur with
  | nil => intro w hw; simp [splitWeeksGo] at hw; simpa [hw]
  | cons d rest ih =>
    intro w hw
    by_cases h : getDay d = 1
    · simp only [splitWeeksGo, h, if_true] at hw
      rcases List.mem_cons.mp hw with hw | hw
      · simpa [hw]
      · exact ih [d] (by simp) w hw
    · simp only [splitWeeksGo, h, if_false] at hw
      exact ih (cur ++ [d]) (by simp) w hw

theorem splitWeeks_ne_nil (d : ℤ) (rest : List ℤ) :
    ∀ w ∈ splitWeeks (d :: rest), w ≠ [] := by
  intro w hw
  exact splitWeeksGo_ne_nil [d] rest (by simp) w hw

theorem splitWeeksGo_ne_nil_list (cur : List ℤ) (l : List ℤ) :
    splitWeeksGo cur l ≠ [] := by
  induction l generalizing cur with
  | nil => simp [splitWeeksGo]
  | cons d rest ih =>
    rw [splitWeeksGo]
    by_cases h : getDay d = 1 <;> simp [h, ih]

theorem splitWeeks_ne_nil_list (l : List ℤ) : splitWeeks l ≠ [] := by
  cases l with
  | nil => simp [splitWeeks]
  | cons d rest => exact splitWeeksGo_ne_nil_list [d] rest

theorem splitWeeksGo_shape (cur : List ℤ) (l : List ℤ) :
    ∃ t ws, splitWeeksGo cur l = (cur ++ t) :: ws ∧
      (t = [] ↔ l = [] ∨ ∃ d r, l = d :: r ∧ getDay d = 1) := by
  cases l with
  | nil => exact ⟨[], [], by simp [splitWeeksGo], by simp⟩
  | cons d rest =>
    by_cases h : getDay d = 1
    · exact ⟨[], splitWeeksGo [d] rest, by simp [splitWeeksGo, h], by simp [h]⟩
    · obtain ⟨t, ws, hgo, -⟩ := splitWeeksGo_shape (cur ++ [d]) rest
      refine ⟨d :: t, ws, ?_, ?_⟩
      · simp only [splitWeeksGo, h, if_false, hgo, List.append_assoc, List.cons_append,
          List.nil_append]
      · constructor
        · intro hc; cases hc
        · rintro (hc | ⟨d2, r2, hc, hd2⟩)
          · cases hc
          · rw [List.cons.injEq] at hc
            exact absurd (hc.1 ▸ hd2) h

/-! Lemmas about the trip day list. -/

theorem length_tripDays (inp : TravelInput) :
    (tripDays inp).length = (totalDays inp).toNat := by
  rw [tripDays, List.length_map, List.length_range]

theorem tripDays_nodup (inp : TravelInput) : (tripDays inp).Nodup := by
  rw [tripDays]
  refine List.Nodup.map ?_ (List.nodup_range _)
  intro a b hab
  simp only [add_right_inj, Nat.cast_inj] at hab
  exact hab

theorem tripDays_eq_cons (inp : TravelInput) (h : 1 ≤ totalDays inp) :
    tripDays inp =
      inp.arrivalDate ::
        (List.range ((totalDays inp).toNat - 1)).map (fun (i : ℕ) => inp.arrivalDate + 1 + (i : ℤ)) := by
  have h1 : (totalDays inp).toNat = ((totalDays inp).toNat - 1) + 1 := by omega
  rw [tripDays, h1, List.range_succ_eq_map, List.map_cons, List.map_map]
  have h2 : ((fun i : ℕ => inp.arrivalDate + (i : ℤ)) ∘ Nat.succ) =
      fun i : ℕ => inp.arrivalDate + 1 + (i : ℤ) := by
    funext i
    simp only [Function.comp_apply, Nat.succ_eq_add_one]
    push_cast
    ring
  rw [h2]
  simp

/-! Dates of the per-week entry lists: every entry generator keeps the day
it was generated from, so mapping `date` over a week's entries returns the
week's day list. -/

theorem map_date_map_of (f : ℤ → DailyDetail) (h : ∀ d, (f d).date = d) (l : List ℤ) :
    (l.map f).map DailyDetail.date = l := by
  rw [List.map_map]
  have h2 : (DailyDetail.date ∘ f) = id := funext fun d => h d
  rw [h2, List.map_id]

theorem map_date_mapIdxFrom_of (f : ℕ → ℤ → DailyDetail) (h : ∀ j d, (f j d).date = d)
    (i : ℕ) (l : List ℤ) : (mapIdxFrom f i l).map DailyDetail.date = l := by
  rw [map_mapIdxFrom]
  exact mapIdxFrom_id_of _ h i l

theorem passEntriesPhysFirst_map_date (inp : TravelInput) (l : List ℤ) :
    (passEntriesPhysFirst inp l).map DailyDetail.date = l :=
  map_date_mapIdxFrom_of _ (fun _ _ => rfl) 0 l

theorem passEntriesPhysLater_map_date (inp : TravelInput) (l : List ℤ) :
    (passEntriesPhysLater inp l).map DailyDetail.date = l :=
  map_date_mapIdxFrom_of _ (fun _ _ => rfl) 0 l

theorem perDayEntriesPhys_map_date (inp : TravelInput) (l : List ℤ) :
    (perDayEntriesPhys inp l).map DailyDetail.date = l := by
  refine map_date_map_of _ (fun d => ?_) l
  by_cases hc : d = inp.departureDate <;> simp [hc]

theorem passEntriesMobile_map_date (inp : TravelInput) (l : List ℤ) :
    (passEntriesMobile inp l).map DailyDetail.date = l := by
  refine map_date_mapIdxFrom_of _ (fun j d => ?_) 0 l
  by_cases hc : useTaxi inp = true ∧ (d = inp.arrivalDate ∨ d = inp.departureDate) <;>
    simp [hc]

theorem perDayEntriesMobile_map_date (inp : TravelInput) (l : List ℤ) :
    (perDayEntriesMobile inp l).map DailyDetail.date = l := by
  refine map_date_map_of _ (fun d => ?_) l
  by_cases hc : d = inp.arrivalDate ∨ d = inp.departureDate <;> simp [hc]

theorem weekEntriesPhysFirst_map_date (inp : TravelInput) (w : List ℤ) :
    ((weekEntriesPhysFirst inp w).1).map DailyDetail.date = w := by
  cases w with
  | nil => rfl
  | cons w0 rest =>
    rw [weekEntriesPhysFirst]
    by_cases h1 : canBuySemainePhys w0 rest = true
    · by_cases h2 : PASS_PRICES.SEMAINE + CARD_FEES.Decouverte <
          (rest.length : ℤ) * minDayCost inp
      · simp [h1, h2, passEntriesPhysFirst_map_date]
      · simp [h1, h2, perDayEntriesPhys_map_date]
    · simp [h1, perDayEntriesPhys_map_date]

theorem weekEntriesPhysLater_map_date (inp : TravelInput) (dec : Bool) (w : List ℤ) :
    ((weekEntriesPhysLater inp dec w).1).map DailyDetail.date = w := by
  rw [weekEntriesPhysLater]
  by_cases h : (if dec then PASS_PRICES.SEMAINE
      else PASS_PRICES.SEMAINE + CARD_FEES.Decouverte) < (w.length : ℤ) * minDayCost inp
  · simp [h, passEntriesPhysLater_map_date]
  · simp [h, perDayEntriesPhys_map_date]

theorem weekEntriesMobile_map_date (inp : TravelInput) (b : Bool) (w : List ℤ) :
    ((weekEntriesMobile inp b w).1).map DailyDetail.date = w := by
  cases w with
  | nil => rfl
  | cons w0 rest =>
    rw [weekEntriesMobile]
    by_cases h : (canBuyMobile b w0 &&
        decide (PASS_PRICES.SEMAINE < ((w0 :: rest).length : ℤ) * minDayCost inp)) = true
    · simp only [h, if_true]
      exact passEntriesMobile_map_date inp (w0 :: rest)
    · simp only [Bool.not_eq_true] at h
      simp only [h, Bool.false_eq_true, if_false]
      exact perDayEntriesMobile_map_date inp (w0 :: rest)

theorem weekEntries_map_date (inp : TravelInput) (b dec : Bool) (w : List ℤ) :
    ((weekEntries inp b dec w).1).map DailyDetail.date = w := by
  rw [weekEntries]
  by_cases h1 : inp.cardType = CardType.Physical
  · cases b with
    | true => simp [h1, weekEntriesPhysFirst_map_date]
    | false => simp [h1, weekEntriesPhysLater_map_date]
  · simp [h1, weekEntriesMobile_map_date]

/-! The hybrid fold: breakdown dates, predicate preservation, flags. -/

theorem hybridStep_breakdown (inp : TravelInput) (b : Bool) (st : HybridState)
    (w : List ℤ) :
    (hybridStep inp b st w).breakdown =
      st.breakdown ++ (weekEntries inp b st.decouverteRequired w).1 := rfl

theorem foldl_hybridStep_map_date (inp : TravelInput) (ws : List (List ℤ)) :
    ∀ st : HybridState,
      ((ws.foldl (hybridStep inp false) st).breakdown).map DailyDetail.date =
        st.breakdown.map DailyDetail.date ++ ws.flatten := by
  induction ws with
  | nil => intro st; simp
  | cons w ws ih =>
    intro st
    rw [List.foldl_cons, ih, hybridStep_breakdown, List.map_append,
      weekEntries_map_date, List.flatten_cons, List.append_assoc]

theorem hybridBreakdown_map_date (inp : TravelInput) :
    (hybridBreakdown inp).map DailyDetail.date = tripDays inp := by
  rw [hybridBreakdown, hybridRun]
  cases hw : splitWeeks (tripDays inp) with
  | nil => exact absurd hw (splitWeeks_ne_nil_list _)
  | cons w0 ws =>
    rw [foldl_hybridStep_map_date, hybridStep_breakdown, List.map_append,
      weekEntries_map_date]
    have hj : (splitWeeks (tripDays inp)).flatten = tripDays inp := splitWeeks_join _
    rw [hw, List.flatten_cons] at hj
    simpa using hj

theorem foldl_hybridStep_pred (inp : TravelInput) (P : DailyDetail → Prop)
    (ws : List (List ℤ)) :
    ∀ st : HybridState,
      (∀ dec w, w ∈ ws → ∀ e ∈ (weekEntries inp false dec w).1, P e) →
      (∀ e ∈ st.breakdown, P e) →
      ∀ e ∈ (ws.foldl (hybridStep inp false) st).breakdown, P e := by
  induction ws with
  | nil => intro st _ hst; simpa using hst
  | cons w ws ih =>
    intro st hws hst
    rw [List.foldl_cons]
    refine ih _ (fun dec w2 hw2 => hws dec w2 (List.mem_cons_of_mem _ hw2)) ?_
    rw [hybridStep_breakdown]
    intro e he
    rcases List.mem_append.mp he with he | he
    · exact hst e he
    · exact hws _ w (List.mem_cons_self _ _) e he

theorem hybridBreakdown_pred (inp : TravelInput) (P : DailyDetail → Prop)
    (hfirst : ∀ w, w ∈ splitWeeks (tripDays inp) →
      ∀ e ∈ (weekEntries inp true false w).1, P e)
    (hlater : ∀ dec w, w ∈ splitWeeks (tripDays inp) →
      ∀ e ∈ (weekEntries inp false dec w).1, P e) :
    ∀ e ∈ hybridBreakdown inp, P e := by
  rw [hybridBreakdown, hybridRun]
  cases hw : splitWeeks (tripDays inp) with
  | nil => simp
  | cons w0 ws =>
    refine foldl_hybridStep_pred inp P ws _
      (fun dec w2 hw2 => hlater dec w2 (hw ▸ List.mem_cons_of_mem _ hw2)) ?_
    rw [hybridStep_breakdown]
    intro e he
    rcases List.mem_append.mp he with he | he
    · simp at he
    · exact hfirst w0 (hw ▸ List.mem_cons_self _ _) e he

theorem foldl_hybridStep_flags (inp : TravelInput) (hphys : inp.cardType = CardType.Physical)
    (ws : List (List ℤ)) :
    ∀ st : HybridState, st.decouverteRequired = st.semaineUsed →
      (ws.foldl (hybridStep inp false) st).decouverteRequired =
        (ws.foldl (hybridStep inp false) st).semaineUsed := by
  induction ws with
  | nil => intro st h; simpa using h
  | cons w ws ih =>
    intro st h
    rw [List.foldl_cons]
    refine ih _ ?_
    simp [hybridStep, hphys, h]

theorem hybridRun_flags (inp : TravelInput) (hphys : inp.cardType = CardType.Physical) :
    (hybridRun inp).decouverteRequired = (hybridRun inp).semaineUsed := by
  rw [hybridRun]
  cases splitWeeks (tripDays inp) with
  | nil => rfl
  | cons w0 ws =>
    refine foldl_hybridStep_flags inp hphys ws _ ?_
    simp [hybridStep, hphys]

/-! The stable sort permutes its input. -/

theorem insertStable_perm (le : α → α → Bool) (x : α) (l : List α) :
    (insertStable le x l).Perm (x :: l) := by
  induction l with
  | nil => exact List.Perm.refl _
  | cons y ys ih =>
    rw [insertStable]
    by_cases h : le x y = true
    · simp [h]
    · simp only [h, Bool.false_eq_true, if_false]
      exact (ih.cons y).trans (List.Perm.swap x y ys)

theorem sortStable_perm (le : α → α → Bool) (l : List α) :
    (sortStable le l).Perm l := by
  induction l with
  | nil => exact List.Perm.refl _
  | cons x xs ih =>
    rw [sortStable]
    exact (insertStable_perm le x (sortStable le xs)).trans (ih.cons x)

theorem mem_sortStable (le : α → α → Bool) (l : List α) (a : α) :
    a ∈ sortStable le l ↔ a ∈ l :=
  (sortStable_perm le l).mem_iff

/-! Cost invariants: every cost the engine produces is a non-negative
multiple of 5 cents (every fare of the table is).  The multiple-of-5
part makes the revision-B comparator exact: two totals within 1 cent of
each other are equal. -/

def CostOk (c : ℤ) : Prop := 0 ≤ c ∧ (5 : ℤ) ∣ c

theorem costOk_add {a b : ℤ} (ha : CostOk a) (hb : CostOk b) : CostOk (a + b) :=
  ⟨add_nonneg ha.1 hb.1, dvd_add ha.2 hb.2⟩

theorem costOk_zero : CostOk 0 := by constructor <;> simp

theorem costOk_ite (p : Prop) [Decidable p] {a b : ℤ} (ha : CostOk a) (hb : CostOk b) :
    CostOk (if p then a else b) := by
  by_cases h : p <;> simp [h, ha, hb]

theorem costOk_min {a b : ℤ} (ha : CostOk a) (hb : CostOk b) : CostOk (min a b) := by
  rcases le_total a b with h | h
  · rwa [min_eq_left h]
  · rwa [min_eq_right h]

theorem costOk_SINGLE : CostOk PASS_PRICES.SINGLE := by constructor <;> decide

theorem costOk_JOUR : CostOk PASS_PRICES.JOUR := by constructor <;> decide

theorem costOk_SEMAINE : CostOk PASS_PRICES.SEMAINE := by constructor <;> decide

theorem costOk_RER : CostOk PASS_PRICES.AIRPORT_RER := by constructor <;> decide

theorem costOk_TAXI : CostOk PASS_PRICES.AIRPORT_TAXI := by constructor <;> decide

theorem costOk_Easy : CostOk CARD_FEES.Easy := by constructor <;> decide

theorem costOk_Decouverte : CostOk CARD_FEES.Decouverte := by constructor <;> decide

theorem costOk_trips (n : ℕ) : CostOk ((n : ℤ) * PASS_PRICES.SINGLE) :=
  ⟨mul_nonneg (by positivity) costOk_SINGLE.1, Dvd.dvd.mul_left costOk_SINGLE.2 _⟩

theorem costOk_minDayCost (inp : TravelInput) : CostOk (minDayCost inp) :=
  costOk_min (costOk_trips _) costOk_JOUR

theorem costOk_airportTransferCost (inp : TravelInput) : CostOk (airportTransferCost inp) :=
  costOk_ite _ costOk_TAXI costOk_RER

theorem costOk_sumCosts (l : List DailyDetail) (h : ∀ e ∈ l, CostOk e.cost) :
    CostOk (sumCosts l) := by
  induction l with
  | nil => exact costOk_zero
  | cons e t ih =>
    rw [sumCosts_cons]
    exact costOk_add (h e (List.mem_cons_self _ _))
      (ih fun x hx => h x (List.mem_cons_of_mem _ hx))

theorem passEntriesPhysFirst_costOk (inp : TravelInput) (l : List ℤ) :
    ∀ e ∈ passEntriesPhysFirst inp l, CostOk e.cost := by
  intro e he
  obtain ⟨j, d, -, rfl⟩ := mem_mapIdxFrom _ _ _ _ he
  exact costOk_ite _ costOk_SEMAINE costOk_zero

theorem passEntriesPhysLater_costOk (inp : TravelInput) (l : List ℤ) :
    ∀ e ∈ passEntriesPhysLater inp l, CostOk e.cost := by
  intro e he
  obtain ⟨j, d, -, rfl⟩ := mem_mapIdxFrom _ _ _ _ he
  exact costOk_ite _ costOk_SEMAINE costOk_zero

theorem perDayEntriesPhys_costOk (inp : TravelInput) (l : List ℤ) :
    ∀ e ∈ perDayEntriesPhys inp l, CostOk e.cost := by
  intro e he
  obtain ⟨d, -, rfl⟩ := List.mem_map.mp he
  by_cases hc : d = inp.departureDate
  · simpa [hc] using costOk_airportTransferCost inp
  · simpa [hc] using costOk_minDayCost inp

theorem passEntriesMobile_costOk (inp : TravelInput) (l : List ℤ) :
    ∀ e ∈ passEntriesMobile inp l, CostOk e.cost := by
  intro e he
  obtain ⟨j, d, -, rfl⟩ := mem_mapIdxFrom _ _ _ _ he
  by_cases hc : useTaxi inp = true ∧ (d = inp.arrivalDate ∨ d = inp.departureDate)
  · simpa [hc] using costOk_add costOk_TAXI (costOk_ite _ costOk_SEMAINE costOk_zero)
  · simpa [hc] using costOk_ite (j = 0) costOk_SEMAINE costOk_zero

theorem perDayEntriesMobile_costOk (inp : TravelInput) (l : List ℤ) :
    ∀ e ∈ perDayEntriesMobile inp l, CostOk e.cost := by
  intro e he
  obtain ⟨d, -, rfl⟩ := List.mem_map.mp he
  by_cases hc : d = inp.arrivalDate ∨ d = inp.departureDate
  · simpa [hc] using costOk_airportTransferCost inp
  · simpa [hc] using costOk_minDayCost inp

theorem weekEntries_costOk (inp : TravelInput) (b dec : Bool) (w : List ℤ) :
    ∀ e ∈ (weekEntries inp b dec w).1, CostOk e.cost := by
  intro e he
  rw [weekEntries] at he
  by_cases h1 : inp.cardType = CardType.Physical
  · rw [if_pos h1] at he
    cases b with
    | true =>
      rw [if_pos rfl] at he
      cases w with
      | nil => simp [weekEntriesPhysFirst] at he
      | cons w0 rest =>
        rw [weekEntriesPhysFirst] at he
        by_cases h2 : canBuySemainePhys w0 rest = true
        · by_cases h3 : PASS_PRICES.SEMAINE + CARD_FEES.Decouverte <
              (rest.length : ℤ) * minDayCost inp
          · rw [if_pos h2, if_pos h3] at he
            rcases List.mem_cons.mp he with rfl | he
            · exact costOk_airportTransferCost inp
            · exact passEntriesPhysFirst_costOk inp rest e he
          · rw [if_pos h2, if_neg h3] at he
            rcases List.mem_cons.mp he with rfl | he
            · exact costOk_airportTransferCost inp
            · exact perDayEntriesPhys_costOk inp rest e he
        · rw [if_neg h2] at he
          rcases List.mem_cons.mp he with rfl | he
          · exact costOk_airportTransferCost inp
          · exact perDayEntriesPhys_costOk inp rest e he
    | false =>
      simp only [Bool.false_eq_true, if_false] at he
      rw [weekEntriesPhysLater] at he
      by_cases h2 : (if dec then PASS_PRICES.SEMAINE
          else PASS_PRICES.SEMAINE + CARD_FEES.Decouverte) < (w.length : ℤ) * minDayCost inp
      · rw [if_pos h2] at he
        exact passEntriesPhysLater_costOk inp w e he
      · rw [if_neg h2] at he
        exact perDayEntriesPhys_costOk inp w e he
  · rw [if_neg h1] at he
    cases w with
    | nil => simp [weekEntriesMobile] at he
    | cons w0 rest =>
      rw [weekEntriesMobile] at he
      by_cases h2 : (canBuyMobile b w0 &&
          decide (PASS_PRICES.SEMAINE < ((w0 :: rest).length : ℤ) * minDayCost inp)) = true
      · rw [if_pos h2] at he
        exact passEntriesMobile_costOk inp (w0 :: rest) e he
      · rw [if_neg h2] at he
        exact perDayEntriesMobile_costOk inp (w0 :: rest) e he

theorem hybridBreakdown_costOk (inp : TravelInput) :
    ∀ e ∈ hybridBreakdown inp, CostOk e.cost :=
  hybridBreakdown_pred inp _ (fun w _ => weekEntries_costOk inp true false w)
    (fun dec w _ => weekEntries_costOk inp false dec w)

theorem singleBreakdown_costOk (inp : TravelInput) :
    ∀ e ∈ singleBreakdown inp, CostOk e.cost := by
  intro e he
  obtain ⟨j, d, -, rfl⟩ := mem_mapIdxFrom _ _ _ _ he
  by_cases hc : j = 0 ∨ j = (tripDays inp).length - 1
  · simpa [hc] using costOk_airportTransferCost inp
  · simpa [hc] using costOk_trips inp.dailyTrips

theorem dailyBreakdown_costOk (inp : TravelInput) :
    ∀ e ∈ dailyBreakdown inp, CostOk e.cost := by
  intro e he
  obtain ⟨j, d, -, rfl⟩ := mem_mapIdxFrom _ _ _ _ he
  by_cases hc : j = 0 ∨ j = (tripDays inp).length - 1
  · simpa [hc] using costOk_airportTransferCost inp
  · simpa [hc] using costOk_JOUR

theorem singleTotal_costOk (inp : TravelInput) : CostOk (singleTotal inp) :=
  costOk_add (costOk_sumCosts _ (singleBreakdown_costOk inp))
    (costOk_ite _ costOk_Easy costOk_zero)

theorem dailyTotal_costOk (inp : TravelInput) : CostOk (dailyTotal inp) :=
  costOk_add (costOk_sumCosts _ (dailyBreakdown_costOk inp))
    (costOk_ite _ costOk_Easy costOk_zero)

theorem hybridTotal_costOk (inp : TravelInput) : CostOk (hybridTotal inp) :=
  costOk_add (costOk_sumCosts _ (hybridBreakdown_costOk inp))
    (costOk_ite _ (costOk_add costOk_Easy (costOk_ite _ costOk_Decouverte costOk_zero))
      costOk_zero)

theorem singleTotalApp_costOk (inp : TravelInput) : CostOk (singleTotalApp inp) :=
  costOk_add (costOk_sumCosts _ (singleBreakdown_costOk inp))
    (costOk_ite _ costOk_Easy costOk_zero)

theorem dailyTotalApp_costOk (inp : TravelInput) : CostOk (dailyTotalApp inp) :=
  costOk_add (costOk_sumCosts _ (dailyBreakdown_costOk inp))
    (costOk_ite _ costOk_Easy costOk_zero)

theorem hybridTotalApp_costOk (inp : TravelInput) : CostOk (hybridTotalApp inp) := by
  refine costOk_add (costOk_sumCosts _ (hybridBreakdown_costOk inp)) ?_
  rw [hybridCardFeeApp]
  exact costOk_ite _
    (costOk_add (costOk_ite _ costOk_Easy costOk_zero)
      (costOk_ite _ costOk_Decouverte costOk_zero)) costOk_zero

/-- Two totals whose difference is at most one cent are equal, because all
totals are multiples of 5 cents. -/
theorem costOk_eq_of_close {a b : ℤ} (ha : CostOk a) (hb : CostOk b)
    (h : ¬ 1 < |a - b|) : a = b := by
  obtain ⟨k, hk⟩ := dvd_sub ha.2 hb.2
  rw [not_lt, abs_le] at h
  omega

/-! Dates of the strategy-1 and strategy-2 breakdowns. -/

theorem singleBreakdown_map_date (inp : TravelInput) :
    (singleBreakdown inp).map DailyDetail.date = tripDays inp := by
  refine map_date_mapIdxFrom_of _ (fun j d => ?_) 0 _
  by_cases hc : j = 0 ∨ j = (tripDays inp).length - 1 <;> simp [hc]

theorem dailyBreakdown_map_date (inp : TravelInput) :
    (dailyBreakdown inp).map DailyDetail.date = tripDays inp := by
  refine map_date_mapIdxFrom_of _ (fun j d => ?_) 0 _
  by_cases hc : j = 0 ∨ j = (tripDays inp).length - 1 <;> simp [hc]

theorem tripDays_pairwise (inp : TravelInput) :
    (tripDays inp).Pairwise (· < ·) := by
  rw [tripDays, List.pairwise_map]
  refine (List.pairwise_lt_range _).imp ?_
  intro a b hab
  omega

/-! Unfolding the strategy list for positive trip length. -/

theorem calculateStrategies_pos (inp : TravelInput) (h : 1 ≤ totalDays inp) :
    calculateStrategies inp =
      sortStable cmpLeA
        [⟨StrategyName.single, singleTotal inp, singleBreakdown inp, false⟩,
         ⟨StrategyName.daily, dailyTotal inp, dailyBreakdown inp, false⟩,
         ⟨StrategyName.hybrid, hybridTotal inp, hybridBreakdown inp, true⟩] := by
  rw [calculateStrategies, if_neg (by omega)]

theorem mem_calculateStrategies (inp : TravelInput) (h : 1 ≤ totalDays inp)
    (s : StrategyResult) (hs : s ∈ calculateStrategies inp) :
    s = ⟨StrategyName.single, singleTotal inp, singleBreakdown inp, false⟩ ∨
    s = ⟨StrategyName.daily, dailyTotal inp, dailyBreakdown inp, false⟩ ∨
    s = ⟨StrategyName.hybrid, hybridTotal inp, hybridBreakdown inp, true⟩ := by
  rw [calculateStrategies_pos inp h, mem_sortStable] at hs
  simpa using hs

/-! Single-day trips. -/

theorem tripDays_single (inp : TravelInput) (h : inp.arrivalDate = inp.departureDate) :
    tripDays inp = [inp.arrivalDate] := by
  have ht : (totalDays inp).toNat = 1 := by rw [totalDays]; omega
  rw [tripDays, ht]
  simp [List.range_succ]

theorem semaine_not_lt_one_mul (inp : TravelInput) :
    ¬ (PASS_PRICES.SEMAINE < (1 : ℤ) * minDayCost inp) := by
  have hm : minDayCost inp ≤ PASS_PRICES.JOUR :=
    min_le_right ((inp.dailyTrips : ℤ) * PASS_PRICES.SINGLE) PASS_PRICES.JOUR
  rw [one_mul]
  unfold PASS_PRICES.SEMAINE PASS_PRICES.JOUR at *
  omega

theorem singleBreakdown_single (inp : TravelInput)
    (h : inp.arrivalDate = inp.departureDate) :
    (singleBreakdown inp).map DailyDetail.cost = [airportTransferCost inp] := by
  rw [singleBreakdown, tripDays_single inp h, mapIdxFrom_cons, mapIdxFrom_nil]
  simp

theorem dailyBreakdown_single (inp : TravelInput)
    (h : inp.arrivalDate = inp.departureDate) :
    (dailyBreakdown inp).map DailyDetail.cost = [airportTransferCost inp] := by
  rw [dailyBreakdown, tripDays_single inp h, mapIdxFrom_cons, mapIdxFrom_nil]
  simp

theorem hybridBreakdown_single (inp : TravelInput)
    (h : inp.arrivalDate = inp.departureDate) :
    (hybridBreakdown inp).map DailyDetail.cost = [airportTransferCost inp] := by
  have hsw : splitWeeks (tripDays inp) = [[inp.arrivalDate]] := by
    rw [tripDays_single inp h]
    rfl
  rw [hybridBreakdown, hybridRun, hsw]
  show ((hybridStep inp true ⟨[], false, false⟩ [inp.arrivalDate]).breakdown).map
    DailyDetail.cost = [airportTransferCost inp]
  rw [hybridStep_breakdown, List.nil_append]
  by_cases hcard : inp.cardType = CardType.Physical
  · rw [weekEntries, if_pos hcard, if_pos rfl, weekEntriesPhysFirst]
    have hc : canBuySemainePhys inp.arrivalDate [] = false := by
      simp [canBuySemainePhys]
    simp [hc, perDayEntriesPhys]
  · rw [weekEntries, if_neg hcard, weekEntriesMobile]
    have hc : (canBuyMobile true inp.arrivalDate &&
        decide (PASS_PRICES.SEMAINE <
          (([inp.arrivalDate] : List ℤ).length : ℤ) * minDayCost inp)) = false := by
      have := semaine_not_lt_one_mul inp
      simp only [List.length_cons, List.length_nil, Nat.cast_one, Bool.and_eq_false_iff,
        decide_eq_false_iff_not]
      right
      simpa using this
    simp only [hc, Bool.false_eq_true, if_false, perDayEntriesMobile, List.map_cons,
      List.map_nil]
    rw [if_pos (Or.inl trivial)]

/-! Claim theorems. -/

/-- C3: `calculateStrategies` is a total function (it is defined for every
input and never raises); it returns the empty list exactly when the
inclusive day count is non-positive, and for every positive trip length it
returns exactly three strategies, named pay-per-ride, day-pass and hybrid. -/
theorem C3_total_empty_iff_three (inp : TravelInput) :
    (calculateStrategies inp = [] ↔ totalDays inp ≤ 0) ∧
    (1 ≤ totalDays inp →
      (calculateStrategies inp).length = 3 ∧
      ((calculateStrategies inp).map StrategyResult.name).Perm
        [StrategyName.single, StrategyName.daily, StrategyName.hybrid]) := by
  by_cases hd : totalDays inp ≤ 0
  · refine ⟨⟨fun _ => hd, fun _ => ?_⟩, fun hpos => absurd hpos (by omega)⟩
    rw [calculateStrategies, if_pos hd]
  · have hpos : 1 ≤ totalDays inp := by omega
    have hlen : (calculateStrategies inp).length = 3 := by
      rw [calculateStrategies_pos inp hpos]
      rw [(sortStable_perm cmpLeA _).length_eq]
      rfl
    refine ⟨⟨fun he => ?_, fun hle => absurd hle hd⟩, fun _ => ⟨hlen, ?_⟩⟩
    · rw [he] at hlen
      simp at hlen
    · rw [calculateStrategies_pos inp hpos]
      exact ((sortStable_perm cmpLeA _).map StrategyResult.name).trans (by rfl)

/-- C3 witness: at a concrete 5-day trip the calculator returns three
strategies, and at a reversed date range it returns none. -/
theorem C3_total_empty_iff_three_witness :
    ((calculateStrategies ⟨10, 14, BagOption.Backpack, 4, CardType.Mobile⟩ = [] ↔
      totalDays ⟨10, 14, BagOption.Backpack, 4, CardType.Mobile⟩ ≤ 0) ∧
    (1 ≤ totalDays ⟨10, 14, BagOption.Backpack, 4, CardType.Mobile⟩ →
      (calculateStrategies ⟨10, 14, BagOption.Backpack, 4, CardType.Mobile⟩).length = 3 ∧
      ((calculateStrategies ⟨10, 14, BagOption.Backpack, 4, CardType.Mobile⟩).map
        StrategyResult.name).Perm
        [StrategyName.single, StrategyName.daily, StrategyName.hybrid])) ∧
    calculateStrategies ⟨14, 10, BagOption.Backpack, 4, CardType.Mobile⟩ = [] :=
  ⟨C3_total_empty_iff_three ⟨10, 14, BagOption.Backpack, 4, CardType.Mobile⟩, by decide⟩

/-- C8: for positive trip length, every returned strategy's breakdown
lists exactly the trip's calendar days, in strictly increasing
(chronological) order — hence one entry per day, no gaps, no duplicates —
and its length is the inclusive day count. -/
theorem C8_breakdown_days (inp : TravelInput) (h : 1 ≤ totalDays inp) :
    ∀ s ∈ calculateStrategies inp,
      s.dailyBreakdown.map DailyDetail.date = tripDays inp ∧
      s.dailyBreakdown.length = (totalDays inp).toNat ∧
      (s.dailyBreakdown.map DailyDetail.date).Pairwise (· < ·) := by
  intro s hs
  have key : s.dailyBreakdown.map DailyDetail.date = tripDays inp := by
    rcases mem_calculateStrategies inp h s hs with rfl | rfl | rfl
    · exact singleBreakdown_map_date inp
    · exact dailyBreakdown_map_date inp
    · exact hybridBreakdown_map_date inp
  refine ⟨key, ?_, ?_⟩
  · have hlen := congrArg List.length key
    rw [List.length_map] at hlen
    rw [hlen, length_tripDays]
  · rw [key]
    exact tripDays_pairwise inp

/-- C8 witness at a concrete 9-day trip crossing a week boundary. -/
theorem C8_breakdown_days_witness :
    1 ≤ totalDays ⟨3, 11, BagOption.Backpack, 3, CardType.Physical⟩ ∧
    ∀ s ∈ calculateStrategies ⟨3, 11, BagOption.Backpack, 3, CardType.Physical⟩,
      s.dailyBreakdown.map DailyDetail.date =
        tripDays ⟨3, 11, BagOption.Backpack, 3, CardType.Physical⟩ ∧
      s.dailyBreakdown.length =
        (totalDays ⟨3, 11, BagOption.Backpack, 3, CardType.Physical⟩).toNat ∧
      (s.dailyBreakdown.map DailyDetail.date).Pairwise (· < ·) :=
  ⟨by decide, C8_breakdown_days ⟨3, 11, BagOption.Backpack, 3, CardType.Physical⟩ (by decide)⟩

/-- C9: on a single-day trip every returned strategy's breakdown consists
of one entry whose cost is the airport transfer — the transfer is charged
exactly once, not twice. -/
theorem C9_single_day_once (inp : TravelInput)
    (h : inp.arrivalDate = inp.departureDate) :
    ∀ s ∈ calculateStrategies inp,
      s.dailyBreakdown.map DailyDetail.cost = [airportTransferCost inp] := by
  have hpos : 1 ≤ totalDays inp := by rw [totalDays]; omega
  intro s hs
  rcases mem_calculateStrategies inp hpos s hs with rfl | rfl | rfl
  · exact singleBreakdown_single inp h
  · exact dailyBreakdown_single inp h
  · exact hybridBreakdown_single inp h

/-- C9 witness at a concrete single-day trip. -/
theorem C9_single_day_once_witness :
    (⟨9, 9, BagOption.MultiCarrier, 5, CardType.Physical⟩ : TravelInput).arrivalDate =
      (⟨9, 9, BagOption.MultiCarrier, 5, CardType.Physical⟩ : TravelInput).departureDate ∧
    ∀ s ∈ calculateStrategies ⟨9, 9, BagOption.MultiCarrier, 5, CardType.Physical⟩,
      s.dailyBreakdown.map DailyDetail.cost =
        [airportTransferCost ⟨9, 9, BagOption.MultiCarrier, 5, CardType.Physical⟩] :=
  ⟨by decide, C9_single_day_once ⟨9, 9, BagOption.MultiCarrier, 5, CardType.Physical⟩ (by decide)⟩

/-- C10: for positive trip length, every breakdown entry cost of every
returned strategy is non-negative, and so is every strategy's total. -/
theorem C10_costs_nonneg (inp : TravelInput) (h : 1 ≤ totalDays inp) :
    ∀ s ∈ calculateStrategies inp,
      (∀ e ∈ s.dailyBreakdown, 0 ≤ e.cost) ∧ 0 ≤ s.totalCost := by
  intro s hs
  rcases mem_calculateStrategies inp h s hs with rfl | rfl | rfl
  · exact ⟨fun e he => (singleBreakdown_costOk inp e he).1, (singleTotal_costOk inp).1⟩
  · exact ⟨fun e he => (dailyBreakdown_costOk inp e he).1, (dailyTotal_costOk inp).1⟩
  · exact ⟨fun e he => (hybridBreakdown_costOk inp e he).1, (hybridTotal_costOk inp).1⟩

/-- C10 witness at a concrete trip with zero daily trips. -/
theorem C10_costs_nonneg_witness :
    1 ≤ totalDays ⟨2, 10, BagOption.MultiCarrier, 0, CardType.Physical⟩ ∧
    ∀ s ∈ calculateStrategies ⟨2, 10, BagOption.MultiCarrier, 0, CardType.Physical⟩,
      (∀ e ∈ s.dailyBreakdown, 0 ≤ e.cost) ∧ 0 ≤ s.totalCost :=
  ⟨by decide, C10_costs_nonneg ⟨2, 10, BagOption.MultiCarrier, 0, CardType.Physical⟩ (by decide)⟩

/-- Card fee attributed per strategy by revision A: the Easy fee for
physical cards on every strategy, plus the Decouverte fee on the hybrid
strategy when it was required; mobile cards pay nothing. -/
def attributedFeeA (inp : TravelInput) : StrategyName → ℤ
  | StrategyName.single => if inp.cardType = CardType.Physical then CARD_FEES.Easy else 0
  | StrategyName.daily => if inp.cardType = CardType.Physical then CARD_FEES.Easy else 0
  | StrategyName.hybrid =>
    if inp.cardType = CardType.Physical then
      CARD_FEES.Easy +
        (if (hybridRun inp).decouverteRequired then CARD_FEES.Decouverte else 0)
    else 0

/-- Card fee attributed per strategy by revision B. -/
def attributedFeeB (inp : TravelInput) : StrategyName → ℤ
  | StrategyName.single => if needsEasy inp then CARD_FEES.Easy else 0
  | StrategyName.daily => if needsEasy inp then CARD_FEES.Easy else 0
  | StrategyName.hybrid => hybridCardFeeApp inp

theorem mem_calculateStrategiesApp (inp : TravelInput) (h : 1 ≤ totalDays inp)
    (s : StrategyResult) (hs : s ∈ calculateStrategiesApp inp) :
    ∃ r : Bool,
      s = ⟨StrategyName.single, singleTotalApp inp, singleBreakdown inp, r⟩ ∨
      s = ⟨StrategyName.daily, dailyTotalApp inp, dailyBreakdown inp, r⟩ ∨
      s = ⟨StrategyName.hybrid, hybridTotalApp inp, hybridBreakdown inp, r⟩ := by
  rw [calculateStrategiesApp, if_neg (by omega)] at hs
  obtain ⟨j, t, ht, rfl⟩ := mem_mapIdxFrom _ _ _ _ hs
  rw [mem_sortStable] at ht
  refine ⟨decide (j = 0), ?_⟩
  simp only [List.mem_cons, List.not_mem_nil, or_false] at ht
  rcases ht with rfl | rfl | rfl
  · left; simp
  · right; left; simp
  · right; right; simp

/-- C2: for positive trip length, in both revisions of the engine, each
returned strategy's total equals the sum of its breakdown costs plus the
card fee attributed to that strategy, and mobile cards are attributed no
fee. -/
theorem C2_total_eq_sum_plus_fee (inp : TravelInput) (h : 1 ≤ totalDays inp) :
    (∀ s ∈ calculateStrategies inp,
      s.totalCost = sumCosts s.dailyBreakdown + attributedFeeA inp s.name ∧
      (inp.cardType = CardType.Mobile → attributedFeeA inp s.name = 0)) ∧
    (∀ s ∈ calculateStrategiesApp inp,
      s.totalCost = sumCosts s.dailyBreakdown + attributedFeeB inp s.name ∧
      (inp.cardType = CardType.Mobile → attributedFeeB inp s.name = 0)) := by
  have hmob : inp.cardType = CardType.Mobile → ¬ inp.cardType = CardType.Physical := by
    intro hm hp
    rw [hm] at hp
    cases hp
  constructor
  · intro s hs
    rcases mem_calculateStrategies inp h s hs with rfl | rfl | rfl
    · exact ⟨rfl, fun hm => by simp [attributedFeeA, hmob hm]⟩
    · exact ⟨rfl, fun hm => by simp [attributedFeeA, hmob hm]⟩
    · exact ⟨rfl, fun hm => by simp [attributedFeeA, hmob hm]⟩
  · intro s hs
    obtain ⟨r, hs⟩ := mem_calculateStrategiesApp inp h s hs
    rcases hs with rfl | rfl | rfl
    · exact ⟨rfl, fun hm => by simp [attributedFeeB, needsEasy, hmob hm]⟩
    · exact ⟨rfl, fun hm => by simp [attributedFeeB, needsEasy, hmob hm]⟩
    · exact ⟨rfl, fun hm => by simp [attributedFeeB, hybridCardFeeApp, hmob hm]⟩

/-- C2 witness at a concrete 10-day physical-card trip. -/
theorem C2_total_eq_sum_plus_fee_witness :
    1 ≤ totalDays ⟨1, 10, BagOption.BackpackCarrier, 4, CardType.Physical⟩ ∧
    ((∀ s ∈ calculateStrategies ⟨1, 10, BagOption.BackpackCarrier, 4, CardType.Physical⟩,
      s.totalCost = sumCosts s.dailyBreakdown +
        attributedFeeA ⟨1, 10, BagOption.BackpackCarrier, 4, CardType.Physical⟩ s.name ∧
      ((⟨1, 10, BagOption.BackpackCarrier, 4, CardType.Physical⟩ : TravelInput).cardType =
        CardType.Mobile →
        attributedFeeA ⟨1, 10, BagOption.BackpackCarrier, 4, CardType.Physical⟩ s.name = 0)) ∧
    (∀ s ∈ calculateStrategiesApp ⟨1, 10, BagOption.BackpackCarrier, 4, CardType.Physical⟩,
      s.totalCost = sumCosts s.dailyBreakdown +
        attributedFeeB ⟨1, 10, BagOption.BackpackCarrier, 4, CardType.Physical⟩ s.name ∧
      ((⟨1, 10, BagOption.BackpackCarrier, 4, CardType.Physical⟩ : TravelInput).cardType =
        CardType.Mobile →
        attributedFeeB ⟨1, 10, BagOption.BackpackCarrier, 4, CardType.Physical⟩ s.name = 0))) :=
  ⟨by decide,
    C2_total_eq_sum_plus_fee ⟨1, 10, BagOption.BackpackCarrier, 4, CardType.Physical⟩ (by decide)⟩

/-! The revision-B comparator: with all totals multiples of 5 cents, its
"may precede" relation is exactly cost order with priority tie-break. -/

/-- The claim's ordering: ascending cost, exact cost ties in strictly
increasing priority (pay-per-ride 1, day-pass 2, hybrid 3). -/
def costPrioLe (s t : StrategyResult) : Prop :=
  s.totalCost ≤ t.totalCost ∧ (s.totalCost = t.totalCost → prio s.name < prio t.name)

theorem costPrioLe_trans {a b c : StrategyResult} (hab : costPrioLe a b)
    (hbc : costPrioLe b c) : costPrioLe a c := by
  refine ⟨le_trans hab.1 hbc.1, fun hac => ?_⟩
  have h1 : a.totalCost = b.totalCost := le_antisymm hab.1 (hac ▸ hbc.1)
  have h2 : b.totalCost = c.totalCost := h1 ▸ hac
  exact lt_trans (hab.2 h1) (hbc.2 h2)

theorem cmpLeB_true_spec {a b : StrategyResult} (ha : CostOk a.totalCost)
    (hb : CostOk b.totalCost) (hp : prio a.name ≠ prio b.name)
    (h : cmpLeB a b = true) : costPrioLe a b := by
  rw [cmpLeB] at h
  by_cases hd : 1 < |a.totalCost - b.totalCost|
  · rw [if_pos hd, decide_eq_true_eq] at h
    refine ⟨h, fun hab => ?_⟩
    rw [hab] at hd
    simp at hd
  · rw [if_neg hd, decide_eq_true_eq] at h
    have heq : a.totalCost = b.totalCost := costOk_eq_of_close ha hb hd
    exact ⟨le_of_eq heq, fun _ => lt_of_le_of_ne h hp⟩

theorem cmpLeB_false_spec {a b : StrategyResult} (ha : CostOk a.totalCost)
    (hb : CostOk b.totalCost) (h : cmpLeB a b = false) : costPrioLe b a := by
  rw [cmpLeB] at h
  by_cases hd : 1 < |a.totalCost - b.totalCost|
  · rw [if_pos hd, decide_eq_false_iff_not, not_le] at h
    refine ⟨le_of_lt h, fun hba => ?_⟩
    rw [hba] at hd
    simp at hd
  · rw [if_neg hd, decide_eq_false_iff_not, not_le] at h
    have heq : a.totalCost = b.totalCost := costOk_eq_of_close ha hb hd
    exact ⟨le_of_eq heq.symm, fun _ => h⟩

theorem sortStable3_spec (x y z : StrategyResult) (hx : CostOk x.totalCost)
    (hy : CostOk y.totalCost) (hz : CostOk z.totalCost)
    (hxy : prio x.name ≠ prio y.name) (hxz : prio x.name ≠ prio z.name)
    (hyz : prio y.name ≠ prio z.name) :
    (sortStable cmpLeB [x, y, z]).Pairwise costPrioLe ∧
      ∃ a b c, sortStable cmpLeB [x, y, z] = [a, b, c] := by
  have hstep : sortStable cmpLeB [x, y, z] =
      insertStable cmpLeB x (insertStable cmpLeB y [z]) := rfl
  rw [hstep]
  by_cases h1 : cmpLeB y z = true
  · rw [insertStable, if_pos h1, insertStable]
    by_cases h2 : cmpLeB x y = true
    · rw [if_pos h2]
      have pxy := cmpLeB_true_spec hx hy hxy h2
      have pyz := cmpLeB_true_spec hy hz hyz h1
      exact ⟨by simp [List.pairwise_cons, pxy, pyz, costPrioLe_trans pxy pyz],
        x, y, z, rfl⟩
    · rw [if_neg h2, insertStable]
      have pyx := cmpLeB_false_spec hx hy (Bool.not_eq_true _ ▸ h2)
      have pyz := cmpLeB_true_spec hy hz hyz h1
      by_cases h3 : cmpLeB x z = true
      · rw [if_pos h3]
        have pxz := cmpLeB_true_spec hx hz hxz h3
        exact ⟨by simp [List.pairwise_cons, pyx, pyz, pxz], y, x, z, rfl⟩
      · rw [if_neg h3, insertStable]
        have pzx := cmpLeB_false_spec hx hz (Bool.not_eq_true _ ▸ h3)
        exact ⟨by simp [List.pairwise_cons, pyx, pyz, pzx], y, z, x, rfl⟩
  · rw [insertStable, if_neg h1, insertStable, insertStable]
    have pzy := cmpLeB_false_spec hy hz (Bool.not_eq_true _ ▸ h1)
    by_cases h2 : cmpLeB x z = true
    · rw [if_pos h2]
      have pxz := cmpLeB_true_spec hx hz hxz h2
      exact ⟨by simp [List.pairwise_cons, pxz, pzy, costPrioLe_trans pxz pzy],
        x, z, y, rfl⟩
    · rw [if_neg h2, insertStable]
      have pzx := cmpLeB_false_spec hx hz (Bool.not_eq_true _ ▸ h2)
      by_cases h3 : cmpLeB x y = true
      · rw [if_pos h3]
        have pxy := cmpLeB_true_spec hx hy hxy h3
        exact ⟨by simp [List.pairwise_cons, pzx, pzy, pxy], z, x, y, rfl⟩
      · rw [if_neg h3, insertStable]
        have pyx := cmpLeB_false_spec hx hy (Bool.not_eq_true _ ▸ h3)
        exact ⟨by simp [List.pairwise_cons, pzx, pzy, pyx], z, y, x, rfl⟩

/-- C1: for positive trip length, the revision-B strategy list is sorted
ascending by total cost with exact ties in the fixed priority order
(pay-per-ride, day-pass, hybrid), and exactly the first element is
recommended. -/
theorem C1_sorted_tiebreak_recommended (inp : TravelInput) (h : 1 ≤ totalDays inp) :
    (calculateStrategiesApp inp).Pairwise costPrioLe ∧
    ∃ a b c, calculateStrategiesApp inp = [a, b, c] ∧
      a.isRecommended = true ∧ b.isRecommended = false ∧ c.isRecommended = false := by
  rw [calculateStrategiesApp, if_neg (by omega)]
  obtain ⟨hpw, a, b, c, hL⟩ :=
    sortStable3_spec
      ⟨StrategyName.single, singleTotalApp inp, singleBreakdown inp, false⟩
      ⟨StrategyName.daily, dailyTotalApp inp, dailyBreakdown inp, false⟩
      ⟨StrategyName.hybrid, hybridTotalApp inp, hybridBreakdown inp, false⟩
      (singleTotalApp_costOk inp) (dailyTotalApp_costOk inp) (hybridTotalApp_costOk inp)
      (by norm_num [prio]) (by norm_num [prio]) (by norm_num [prio])
  rw [hL] at hpw ⊢
  rw [mapIdxFrom_cons, mapIdxFrom_cons, mapIdxFrom_cons, mapIdxFrom_nil]
  rw [List.pairwise_cons, List.pairwise_cons] at hpw
  obtain ⟨hab, hbc⟩ := hpw
  have pab : costPrioLe a b := hab b (List.mem_cons_self _ _)
  have pac : costPrioLe a c := hab c (List.mem_cons_of_mem _ (List.mem_cons_self _ _))
  have pbc : costPrioLe b c := hbc.1 c (List.mem_cons_self _ _)
  constructor
  · refine List.Pairwise.cons ?_ (List.Pairwise.cons ?_ ?_)
    · intro t ht
      rcases List.mem_cons.mp ht with rfl | ht
      · exact ⟨pab.1, pab.2⟩
      · rcases List.mem_singleton.mp ht with rfl
        exact ⟨pac.1, pac.2⟩
    · intro t ht
      rcases List.mem_singleton.mp ht with rfl
      exact ⟨pbc.1, pbc.2⟩
    · exact List.pairwise_cons.mpr ⟨fun t ht => absurd ht (List.not_mem_nil _),
        List.Pairwise.nil⟩
  · exact ⟨_, _, _, rfl, rfl, rfl, rfl⟩

/-- C1 witness at a concrete trip whose one-day totals all tie. -/
theorem C1_sorted_tiebreak_recommended_witness :
    1 ≤ totalDays ⟨4, 4, BagOption.Backpack, 2, CardType.Mobile⟩ ∧
    ((calculateStrategiesApp ⟨4, 4, BagOption.Backpack, 2, CardType.Mobile⟩).Pairwise
      costPrioLe ∧
    ∃ a b c, calculateStrategiesApp ⟨4, 4, BagOption.Backpack, 2, CardType.Mobile⟩ =
        [a, b, c] ∧
      a.isRecommended = true ∧ b.isRecommended = false ∧ c.isRecommended = false) :=
  ⟨by decide,
    C1_sorted_tiebreak_recommended ⟨4, 4, BagOption.Backpack, 2, CardType.Mobile⟩ (by decide)⟩

/-! Week-pass purchase is observable: the pass-bought flag of a week is
true exactly when a pass-labelled entry was pushed for that week. -/

/-- Labels denoting a week pass: the week-pass, week-pass-start and
taxi-plus-week-pass labels. -/
def isPassLabel : PassType → Bool
  | PassType.semaine => true
  | PassType.semaineStart => true
  | PassType.taxiPlusSemaine => true
  | _ => false

theorem perDayEntriesPhys_no_pass (inp : TravelInput) (l : List ℤ) :
    ∀ e ∈ perDayEntriesPhys inp l, isPassLabel e.passType = false := by
  intro e he
  obtain ⟨d, -, rfl⟩ := List.mem_map.mp he
  by_cases hc : d = inp.departureDate
  · by_cases ht : useTaxi inp = true <;> simp [hc, ht, isPassLabel]
  · simp [hc, isPassLabel]

theorem perDayEntriesMobile_no_pass (inp : TravelInput) (l : List ℤ) :
    ∀ e ∈ perDayEntriesMobile inp l, isPassLabel e.passType = false := by
  intro e he
  obtain ⟨d, -, rfl⟩ := List.mem_map.mp he
  by_cases hc : d = inp.arrivalDate ∨ d = inp.departureDate
  · by_cases ht : useTaxi inp = true <;> simp [hc, ht, isPassLabel]
  · simp [hc, isPassLabel]

theorem passEntriesPhysFirst_head_pass (inp : TravelInput) (d : ℤ) (t : List ℤ) :
    ∃ e es, passEntriesPhysFirst inp (d :: t) = e :: es ∧ isPassLabel e.passType = true := by
  rw [passEntriesPhysFirst, mapIdxFrom_cons]
  refine ⟨_, _, rfl, ?_⟩
  by_cases hc : d = inp.departureDate ∧ useTaxi inp = true <;> simp [hc, isPassLabel]

theorem passEntriesPhysLater_head_pass (inp : TravelInput) (d : ℤ) (t : List ℤ) :
    ∃ e es, passEntriesPhysLater inp (d :: t) = e :: es ∧ isPassLabel e.passType = true := by
  rw [passEntriesPhysLater, mapIdxFrom_cons]
  refine ⟨_, _, rfl, ?_⟩
  by_cases hc : d = inp.departureDate ∧ useTaxi inp = true <;> simp [hc, isPassLabel]

theorem passEntriesMobile_head_pass (inp : TravelInput) (d : ℤ) (t : List ℤ) :
    ∃ e es, passEntriesMobile inp (d :: t) = e :: es ∧ isPassLabel e.passType = true := by
  rw [passEntriesMobile, mapIdxFrom_cons]
  refine ⟨_, _, rfl, ?_⟩
  by_cases hc : useTaxi inp = true ∧ (d = inp.arrivalDate ∨ d = inp.departureDate) <;>
    simp [hc, isPassLabel]

theorem weekEntries_semaine_iff (inp : TravelInput) (b dec : Bool) (w : List ℤ) :
    (weekEntries inp b dec w).2 = true ↔
      ∃ e ∈ (weekEntries inp b dec w).1, isPassLabel e.passType = true := by
  rw [weekEntries]
  by_cases h1 : inp.cardType = CardType.Physical
  · rw [if_pos h1]
    cases b with
    | true =>
      rw [if_pos rfl]
      cases w with
      | nil => simp [weekEntriesPhysFirst]
      | cons w0 rest =>
        rw [weekEntriesPhysFirst]
        by_cases h2 : canBuySemainePhys w0 rest = true
        · by_cases h3 : PASS_PRICES.SEMAINE + CARD_FEES.Decouverte <
              (rest.length : ℤ) * minDayCost inp
          · rw [if_pos h2, if_pos h3]
            simp only [true_iff]
            have hrest : rest ≠ [] := by
              rw [canBuySemainePhys] at h2
              simp only [Bool.and_eq_true, Bool.not_eq_true] at h2
              intro hc
              rw [hc] at h2
              simp at h2
            obtain ⟨d, t, rfl⟩ := List.exists_cons_of_ne_nil hrest
            obtain ⟨e, es, heq, hpass⟩ := passEntriesPhysFirst_head_pass inp d t
            exact ⟨e, by rw [heq]; exact List.mem_cons_of_mem _ (List.mem_cons_self _ _),
              hpass⟩
          · rw [if_pos h2, if_neg h3]
            simp only [Bool.false_eq_true, false_iff, not_exists]
            intro e hep
            obtain ⟨he, hpass⟩ := hep
            rcases List.mem_cons.mp he with rfl | he
            · revert hpass
              by_cases ht : useTaxi inp = true <;> simp [ht, isPassLabel]
            · rw [perDayEntriesPhys_no_pass inp rest e he] at hpass
              cases hpass
        · rw [if_neg h2]
          simp only [Bool.false_eq_true, false_iff, not_exists]
          intro e hep
          obtain ⟨he, hpass⟩ := hep
          rcases List.mem_cons.mp he with rfl | he
          · revert hpass
            by_cases ht : useTaxi inp = true <;> simp [ht, isPassLabel]
          · rw [perDayEntriesPhys_no_pass inp rest e he] at hpass
            cases hpass
    | false =>
      simp only [Bool.false_eq_true, if_false]
      rw [weekEntriesPhysLater]
      by_cases h2 : (if dec then PASS_PRICES.SEMAINE
          else PASS_PRICES.SEMAINE + CARD_FEES.Decouverte) < (w.length : ℤ) * minDayCost inp
      · rw [if_pos h2]
        simp only [true_iff]
        have hw : w ≠ [] := by
          intro hc
          rw [hc] at h2
          revert h2
          by_cases hd : dec = true <;>
            simp [hd, PASS_PRICES.SEMAINE, CARD_FEES.Decouverte]
        obtain ⟨d, t, rfl⟩ := List.exists_cons_of_ne_nil hw
        obtain ⟨e, es, heq, hpass⟩ := passEntriesPhysLater_head_pass inp d t
        exact ⟨e, by rw [heq]; exact List.mem_cons_self _ _, hpass⟩
      · rw [if_neg h2]
        simp only [Bool.false_eq_true, false_iff, not_exists]
        intro e hep
        obtain ⟨he, hpass⟩ := hep
        rw [perDayEntriesPhys_no_pass inp w e he] at hpass
        cases hpass
  · rw [if_neg h1]
    cases w with
    | nil => simp [weekEntriesMobile]
    | cons w0 rest =>
      rw [weekEntriesMobile]
      by_cases h2 : (canBuyMobile b w0 &&
          decide (PASS_PRICES.SEMAINE < ((w0 :: rest).length : ℤ) * minDayCost inp)) = true
      · rw [if_pos h2]
        simp only [true_iff]
        obtain ⟨e, es, heq, hpass⟩ := passEntriesMobile_head_pass inp w0 rest
        exact ⟨e, by rw [heq]; exact List.mem_cons_self _ _, hpass⟩
      · rw [if_neg h2]
        simp only [Bool.false_eq_true, false_iff, not_exists]
        intro e hep
        obtain ⟨he, hpass⟩ := hep
        rw [perDayEntriesMobile_no_pass inp (w0 :: rest) e he] at hpass
        cases hpass

theorem foldl_hybridStep_semaine_iff (inp : TravelInput) (ws : List (List ℤ)) :
    ∀ st : HybridState,
      (st.semaineUsed = true ↔ ∃ e ∈ st.breakdown, isPassLabel e.passType = true) →
      ((ws.foldl (hybridStep inp false) st).semaineUsed = true ↔
        ∃ e ∈ (ws.foldl (hybridStep inp false) st).breakdown,
          isPassLabel e.passType = true) := by
  induction ws with
  | nil => intro st h; simpa using h
  | cons w ws ih =>
    intro st h
    rw [List.foldl_cons]
    refine ih _ ?_
    show (st.semaineUsed || (weekEntries inp false st.decouverteRequired w).2) = true ↔ _
    rw [hybridStep_breakdown]
    rw [Bool.or_eq_true, h, weekEntries_semaine_iff]
    constructor
    · rintro (⟨e, he, hp⟩ | ⟨e, he, hp⟩)
      · exact ⟨e, List.mem_append.mpr (Or.inl he), hp⟩
      · exact ⟨e, List.mem_append.mpr (Or.inr he), hp⟩
    · rintro ⟨e, he, hp⟩
      rcases List.mem_append.mp he with he | he
      · exact Or.inl ⟨e, he, hp⟩
      · exact Or.inr ⟨e, he, hp⟩

theorem hybridRun_semaine_iff (inp : TravelInput) :
    (hybridRun inp).semaineUsed = true ↔
      ∃ e ∈ hybridBreakdown inp, isPassLabel e.passType = true := by
  rw [hybridBreakdown, hybridRun]
  cases splitWeeks (tripDays inp) with
  | nil => simp
  | cons w0 ws =>
    refine foldl_hybridStep_semaine_iff inp ws _ ?_
    show ((false : Bool) || (weekEntries inp true false w0).2) = true ↔ _
    rw [hybridStep_breakdown, Bool.false_or, weekEntries_semaine_iff]
    simp

/-- C6: in the revision-B hybrid strategy, mobile cards pay no card fee;
physical cards pay the Easy fee exactly when some breakdown entry used
per-ride/day-pass or airport-RER pricing, plus the Decouverte fee exactly
when some week pass was purchased (a pass-labelled entry exists) — the
two fees are additive. -/
theorem C6_hybrid_card_fee (inp : TravelInput) (_h : 1 ≤ totalDays inp) :
    (inp.cardType = CardType.Mobile → hybridCardFeeApp inp = 0) ∧
    (inp.cardType = CardType.Physical →
      hybridCardFeeApp inp =
        (if ∃ e ∈ hybridBreakdown inp, passTypeUsesEasy e.passType = true
          then CARD_FEES.Easy else 0) +
        (if ∃ e ∈ hybridBreakdown inp, isPassLabel e.passType = true
          then CARD_FEES.Decouverte else 0)) := by
  constructor
  · intro hm
    rw [hybridCardFeeApp, if_neg (by rw [hm]; intro hc; cases hc)]
  · intro hp
    rw [hybridCardFeeApp, if_pos hp]
    have h1 : usesEasy (hybridBreakdown inp) = true ↔
        ∃ e ∈ hybridBreakdown inp, passTypeUsesEasy e.passType = true := by
      rw [usesEasy, List.any_eq_true]
    have h2 : (hybridRun inp).decouverteRequired = true ↔
        ∃ e ∈ hybridBreakdown inp, isPassLabel e.passType = true := by
      rw [hybridRun_flags inp hp, hybridRun_semaine_iff]
    congr 1
    · by_cases hu : usesEasy (hybridBreakdown inp) = true
      · rw [if_pos hu, if_pos (h1.mp hu)]
      · rw [if_neg hu, if_neg (fun hc => hu (h1.mpr hc))]
    · by_cases hd : (hybridRun inp).decouverteRequired = true
      · rw [if_pos hd, if_pos (h2.mp hd)]
      · rw [if_neg hd, if_neg (fun hc => hd (h2.mpr hc))]

/-- C6 witness: a concrete physical-card trip that needs both cards (a
per-day first day and a purchased week pass). -/
theorem C6_hybrid_card_fee_witness :
    1 ≤ totalDays ⟨1, 14, BagOption.Backpack, 4, CardType.Physical⟩ ∧
    (((⟨1, 14, BagOption.Backpack, 4, CardType.Physical⟩ : TravelInput).cardType =
        CardType.Mobile →
      hybridCardFeeApp ⟨1, 14, BagOption.Backpack, 4, CardType.Physical⟩ = 0) ∧
    ((⟨1, 14, BagOption.Backpack, 4, CardType.Physical⟩ : TravelInput).cardType =
        CardType.Physical →
      hybridCardFeeApp ⟨1, 14, BagOption.Backpack, 4, CardType.Physical⟩ =
        (if ∃ e ∈ hybridBreakdown ⟨1, 14, BagOption.Backpack, 4, CardType.Physical⟩,
            passTypeUsesEasy e.passType = true then CARD_FEES.Easy else 0) +
        (if ∃ e ∈ hybridBreakdown ⟨1, 14, BagOption.Backpack, 4, CardType.Physical⟩,
            isPassLabel e.passType = true then CARD_FEES.Decouverte else 0))) :=
  ⟨by decide, C6_hybrid_card_fee ⟨1, 14, BagOption.Backpack, 4, CardType.Physical⟩ (by decide)⟩

/-! The first week of the trip: it starts with the arrival day, and its
rest is empty exactly when the trip has one day or the next day is a
Monday (arrival on a Sunday). -/

theorem splitWeeks_tripDays_head (inp : TravelInput) (h : 1 ≤ totalDays inp) :
    ∃ t ws, splitWeeks (tripDays inp) = (inp.arrivalDate :: t) :: ws ∧
      (t = [] ↔ totalDays inp = 1 ∨ getDay inp.arrivalDate = 0) := by
  rw [tripDays_eq_cons inp h, splitWeeks]
  obtain ⟨t, ws, hgo, hiff⟩ := splitWeeksGo_shape [inp.arrivalDate]
    ((List.range ((totalDays inp).toNat - 1)).map (fun (i : ℕ) => inp.arrivalDate + 1 + (i : ℤ)))
  refine ⟨t, ws, by simpa using hgo, ?_⟩
  rw [hiff]
  constructor
  · rintro (hres | ⟨d, r, hres, hd⟩)
    · left
      have := congrArg List.length hres
      simp only [List.length_map, List.length_range, List.length_nil] at this
      omega
    · right
      by_cases h2 : 2 ≤ totalDays inp
      · have hk : (totalDays inp).toNat - 1 = ((totalDays inp).toNat - 2) + 1 := by omega
        rw [hk, List.range_succ_eq_map, List.map_cons] at hres
        rw [List.cons.injEq] at hres
        have hd1 : d = inp.arrivalDate + 1 := by
          rw [← hres.1]
          simp
        rw [hd1] at hd
        rw [getDay] at hd ⊢
        omega
      · have hres0 : (totalDays inp).toNat - 1 = 0 := by omega
        rw [hres0] at hres
        simp at hres
  · rintro (h1 | h0)
    · left
      rw [h1]
      simp
    · by_cases h2 : 2 ≤ totalDays inp
      · right
        have hk : (totalDays inp).toNat - 1 = ((totalDays inp).toNat - 2) + 1 := by omega
        rw [hk, List.range_succ_eq_map, List.map_cons]
        refine ⟨_, _, rfl, ?_⟩
        rw [getDay] at h0 ⊢
        omega
      · left
        have hres0 : (totalDays inp).toNat - 1 = 0 := by omega
        rw [hres0]
        simp

/-- C7 counterexample: a one-day physical-card trip arriving on a Monday.
The first week is the single arrival day, its rest of week is empty, and
the week-pass guard `canBuySemainePhys` is false even though the arrival
day-of-week (Monday) lies inside the claimed Monday–Wednesday window — so
the claimed "if and only if" fails as stated. -/
theorem C7_counterexample :
    splitWeeks (tripDays ⟨1, 1, BagOption.Backpack, 2, CardType.Physical⟩) =
      [[(1 : ℤ)]] ∧
    canBuySemainePhys 1 ([] : List ℤ) = false ∧
    1 ≤ getDay 1 ∧ getDay 1 ≤ 3 := by
  refine ⟨?_, ?_, ?_, ?_⟩ <;> decide

/-- C7 amended: the mobile-path guard holds iff the arrival day-of-week is
Monday–Thursday; the physical-path guard holds iff the arrival day-of-week
is Monday–Wednesday AND the trip lasts at least two days; for subsequent
weeks the mobile guard is always true and the physical pass decision is
the bare cost comparison, with no day-of-week condition. -/
theorem C7_amended_eligibility (inp : TravelInput) (h : 1 ≤ totalDays inp) :
    ∃ t ws, splitWeeks (tripDays inp) = (inp.arrivalDate :: t) :: ws ∧
      (canBuySemainePhys inp.arrivalDate t = true ↔
        (1 ≤ getDay inp.arrivalDate ∧ getDay inp.arrivalDate ≤ 3 ∧ 2 ≤ totalDays inp)) ∧
      (canBuyMobile true inp.arrivalDate = true ↔
        (1 ≤ getDay inp.arrivalDate ∧ getDay inp.arrivalDate ≤ 4)) ∧
      (∀ d : ℤ, canBuyMobile false d = true) ∧
      (∀ (dec : Bool) (w : List ℤ),
        (weekEntriesPhysLater inp dec w).2 = true ↔
          (if dec = true then PASS_PRICES.SEMAINE
            else PASS_PRICES.SEMAINE + CARD_FEES.Decouverte) <
            (w.length : ℤ) * minDayCost inp) := by
  obtain ⟨t, ws, hsw, hiff⟩ := splitWeeks_tripDays_head inp h
  refine ⟨t, ws, hsw, ?_, ?_, ?_, ?_⟩
  · rw [canBuySemainePhys]
    constructor
    · intro hg
      simp only [Bool.and_eq_true, decide_eq_true_eq, Bool.not_eq_true'] at hg
      obtain ⟨⟨h1, h2⟩, h3⟩ := hg
      refine ⟨h1, h2, ?_⟩
      have ht : ¬ t = [] := by
        intro hc
        rw [hc] at h3
        simp at h3
      have h4 := (not_iff_not.mpr hiff).mp ht
      push_neg at h4
      omega
    · rintro ⟨h1, h2, h3⟩
      have ht : ¬ t = [] := by
        intro hc
        rcases hiff.mp hc with hc1 | hc0 <;> omega
      simp only [Bool.and_eq_true, decide_eq_true_eq, Bool.not_eq_true']
      refine ⟨⟨h1, h2⟩, ?_⟩
      cases t with
      | nil => exact absurd rfl ht
      | cons a l => rfl
  · rw [canBuyMobile, if_pos rfl]
    simp [Bool.and_eq_true]
  · intro d
    rw [canBuyMobile]
    rfl
  · intro dec w
    rw [weekEntriesPhysLater]
    by_cases hc : (if dec = true then PASS_PRICES.SEMAINE
        else PASS_PRICES.SEMAINE + CARD_FEES.Decouverte) < (w.length : ℤ) * minDayCost inp
    · simp [hc]
    · simp [hc]

/-- C7 amended-claim witness at a concrete 7-day Tuesday-arrival trip. -/
theorem C7_amended_eligibility_witness :
    1 ≤ totalDays ⟨2, 8, BagOption.Backpack, 3, CardType.Physical⟩ ∧
    ∃ t ws,
      splitWeeks (tripDays ⟨2, 8, BagOption.Backpack, 3, CardType.Physical⟩) =
        ((⟨2, 8, BagOption.Backpack, 3, CardType.Physical⟩ : TravelInput).arrivalDate :: t) ::
          ws ∧
      (canBuySemainePhys
          (⟨2, 8, BagOption.Backpack, 3, CardType.Physical⟩ : TravelInput).arrivalDate t =
            true ↔
        (1 ≤ getDay (⟨2, 8, BagOption.Backpack, 3, CardType.Physical⟩ :
            TravelInput).arrivalDate ∧
          getDay (⟨2, 8, BagOption.Backpack, 3, CardType.Physical⟩ :
            TravelInput).arrivalDate ≤ 3 ∧
          2 ≤ totalDays ⟨2, 8, BagOption.Backpack, 3, CardType.Physical⟩)) ∧
      (canBuyMobile true
          (⟨2, 8, BagOption.Backpack, 3, CardType.Physical⟩ : TravelInput).arrivalDate =
            true ↔
        (1 ≤ getDay (⟨2, 8, BagOption.Backpack, 3, CardType.Physical⟩ :
            TravelInput).arrivalDate ∧
          getDay (⟨2, 8, BagOption.Backpack, 3, CardType.Physical⟩ :
            TravelInput).arrivalDate ≤ 4)) ∧
      (∀ d : ℤ, canBuyMobile false d = true) ∧
      (∀ (dec : Bool) (w : List ℤ),
        (weekEntriesPhysLater ⟨2, 8, BagOption.Backpack, 3, CardType.Physical⟩ dec w).2 =
            true ↔
          (if dec = true then PASS_PRICES.SEMAINE
            else PASS_PRICES.SEMAINE + CARD_FEES.Decouverte) <
            (w.length : ℤ) *
              minDayCost ⟨2, 8, BagOption.Backpack, 3, CardType.Physical⟩) :=
  ⟨by decide,
    C7_amended_eligibility ⟨2, 8, BagOption.Backpack, 3, CardType.Physical⟩ (by decide)⟩

/-! A seven-day Monday-arrival week, computed symbolically: the material
for the amended C4 statement. -/

theorem tripDays_seven (inp : TravelInput) (h7 : inp.departureDate = inp.arrivalDate + 6) :
    tripDays inp = [inp.arrivalDate, inp.arrivalDate + 1, inp.arrivalDate + 2,
      inp.arrivalDate + 3, inp.arrivalDate + 4, inp.arrivalDate + 5, inp.arrivalDate + 6] := by
  have ht : (totalDays inp).toNat = 7 := by rw [totalDays]; omega
  rw [tripDays, ht]
  norm_num [List.range_succ]

theorem splitWeeks_seven (a : ℤ) (ha : getDay a = 1) :
    splitWeeks [a, a + 1, a + 2, a + 3, a + 4, a + 5, a + 6] =
      [[a, a + 1, a + 2, a + 3, a + 4, a + 5, a + 6]] := by
  have h1 : ¬ getDay (a + 1) = 1 := by rw [getDay] at ha ⊢; omega
  have h2 : ¬ getDay (a + 2) = 1 := by rw [getDay] at ha ⊢; omega
  have h3 : ¬ getDay (a + 3) = 1 := by rw [getDay] at ha ⊢; omega
  have h4 : ¬ getDay (a + 4) = 1 := by rw [getDay] at ha ⊢; omega
  have h5 : ¬ getDay (a + 5) = 1 := by rw [getDay] at ha ⊢; omega
  have h6 : ¬ getDay (a + 6) = 1 := by rw [getDay] at ha ⊢; omega
  simp [splitWeeks, splitWeeksGo, h1, h2, h3, h4, h5, h6]

theorem hybridBreakdown_mobile_monday_week (a : ℤ) (ha : getDay a = 1) (t : ℕ) (ht : 2 ≤ t)
    (bag : BagOption) :
    (hybridBreakdown ⟨a, a + 6, bag, t, CardType.Mobile⟩).map (fun e => (e.date, e.cost)) =
      [(a, (if bag = BagOption.MultiCarrier then PASS_PRICES.AIRPORT_TAXI else 0) +
          PASS_PRICES.SEMAINE),
       (a + 1, 0), (a + 2, 0), (a + 3, 0), (a + 4, 0), (a + 5, 0),
       (a + 6, if bag = BagOption.MultiCarrier then PASS_PRICES.AIRPORT_TAXI else 0)] ∧
    ∀ e ∈ hybridBreakdown ⟨a, a + 6, bag, t, CardType.Mobile⟩,
      isPassLabel e.passType = true := by
  have hsw : splitWeeks (tripDays ⟨a, a + 6, bag, t, CardType.Mobile⟩) =
      [[a, a + 1, a + 2, a + 3, a + 4, a + 5, a + 6]] := by
    rw [tripDays_seven _ rfl]
    exact splitWeeks_seven a ha
  have hbd : hybridBreakdown ⟨a, a + 6, bag, t, CardType.Mobile⟩ =
      (weekEntriesMobile ⟨a, a + 6, bag, t, CardType.Mobile⟩ true
        [a, a + 1, a + 2, a + 3, a + 4, a + 5, a + 6]).1 := by
    rw [hybridBreakdown, hybridRun, hsw]
    show (hybridStep ⟨a, a + 6, bag, t, CardType.Mobile⟩ true ⟨[], false, false⟩
      [a, a + 1, a + 2, a + 3, a + 4, a + 5, a + 6]).breakdown = _
    rw [hybridStep_breakdown, List.nil_append, weekEntries]
    rw [if_neg (by intro hc; cases hc)]
  have hcan : canBuyMobile true a = true := by
    simp [canBuyMobile, ha]
  have hmin : (510 : ℤ) ≤ minDayCost ⟨a, a + 6, bag, t, CardType.Mobile⟩ := by
    refine le_min ?_ (by norm_num [PASS_PRICES.JOUR])
    have htz : (2 : ℤ) ≤ (t : ℤ) := by exact_mod_cast ht
    show (510 : ℤ) ≤ (t : ℤ) * PASS_PRICES.SINGLE
    rw [PASS_PRICES.SINGLE]
    omega
  have hlt : PASS_PRICES.SEMAINE <
      (([a, a + 1, a + 2, a + 3, a + 4, a + 5, a + 6] : List ℤ).length : ℤ) *
        minDayCost ⟨a, a + 6, bag, t, CardType.Mobile⟩ := by
    simp only [List.length_cons, List.length_nil]
    rw [PASS_PRICES.SEMAINE]
    omega
  have hcond : (canBuyMobile true a &&
      decide (PASS_PRICES.SEMAINE <
        (([a, a + 1, a + 2, a + 3, a + 4, a + 5, a + 6] : List ℤ).length : ℤ) *
          minDayCost ⟨a, a + 6, bag, t, CardType.Mobile⟩)) = true := by
    rw [Bool.and_eq_true]
    exact ⟨hcan, decide_eq_true hlt⟩
  rw [hbd, weekEntriesMobile, if_pos hcond]
  have hne1 : ¬ (a + 1 = a ∨ a + 1 = a + 6) := by omega
  have hne2 : ¬ (a + 2 = a ∨ a + 2 = a + 6) := by omega
  have hne3 : ¬ (a + 3 = a ∨ a + 3 = a + 6) := by omega
  have hne4 : ¬ (a + 4 = a ∨ a + 4 = a + 6) := by omega
  have hne5 : ¬ (a + 5 = a ∨ a + 5 = a + 6) := by omega
  cases bag <;>
    simp [passEntriesMobile, mapIdxFrom, useTaxi, hne1, hne2, hne3, hne4, hne5, isPassLabel]

theorem hybridBreakdown_phys_monday_week (a : ℤ) (ha : getDay a = 1) (t : ℕ) (ht : 3 ≤ t)
    (bag : BagOption) :
    (hybridBreakdown ⟨a, a + 6, bag, t, CardType.Physical⟩).map (fun e => (e.date, e.cost)) =
      [(a, airportTransferCost ⟨a, a + 6, bag, t, CardType.Physical⟩),
       (a + 1, PASS_PRICES.SEMAINE), (a + 2, 0), (a + 3, 0), (a + 4, 0), (a + 5, 0),
       (a + 6, 0)] ∧
    ∀ e ∈ hybridBreakdown ⟨a, a + 6, bag, t, CardType.Physical⟩,
      e.date = a ∨ isPassLabel e.passType = true := by
  have hsw : splitWeeks (tripDays ⟨a, a + 6, bag, t, CardType.Physical⟩) =
      [[a, a + 1, a + 2, a + 3, a + 4, a + 5, a + 6]] := by
    rw [tripDays_seven _ rfl]
    exact splitWeeks_seven a ha
  have hbd0 : hybridBreakdown ⟨a, a + 6, bag, t, CardType.Physical⟩ =
      (weekEntriesPhysFirst ⟨a, a + 6, bag, t, CardType.Physical⟩
        [a, a + 1, a + 2, a + 3, a + 4, a + 5, a + 6]).1 := by
    rw [hybridBreakdown, hybridRun, hsw]
    show (hybridStep ⟨a, a + 6, bag, t, CardType.Physical⟩ true ⟨[], false, false⟩
      [a, a + 1, a + 2, a + 3, a + 4, a + 5, a + 6]).breakdown = _
    rw [hybridStep_breakdown, List.nil_append, weekEntries]
    rw [if_pos rfl, if_pos rfl]
  have hcan : canBuySemainePhys a [a + 1, a + 2, a + 3, a + 4, a + 5, a + 6] = true := by
    simp [canBuySemainePhys, ha]
  have hmin : (765 : ℤ) ≤ minDayCost ⟨a, a + 6, bag, t, CardType.Physical⟩ := by
    refine le_min ?_ (by norm_num [PASS_PRICES.JOUR])
    have htz : (3 : ℤ) ≤ (t : ℤ) := by exact_mod_cast ht
    show (765 : ℤ) ≤ (t : ℤ) * PASS_PRICES.SINGLE
    rw [PASS_PRICES.SINGLE]
    omega
  have hlt : PASS_PRICES.SEMAINE + CARD_FEES.Decouverte <
      (([a + 1, a + 2, a + 3, a + 4, a + 5, a + 6] : List ℤ).length : ℤ) *
        minDayCost ⟨a, a + 6, bag, t, CardType.Physical⟩ := by
    simp only [List.length_cons, List.length_nil]
    rw [PASS_PRICES.SEMAINE, CARD_FEES.Decouverte]
    omega
  have hbd : hybridBreakdown ⟨a, a + 6, bag, t, CardType.Physical⟩ =
      (⟨a, if useTaxi ⟨a, a + 6, bag, t, CardType.Physical⟩ = true then PassType.airportTaxi
          else PassType.airportREReasy,
        airportTransferCost ⟨a, a + 6, bag, t, CardType.Physical⟩⟩ : DailyDetail) ::
      passEntriesPhysFirst ⟨a, a + 6, bag, t, CardType.Physical⟩
        [a + 1, a + 2, a + 3, a + 4, a + 5, a + 6] := by
    rw [hbd0, weekEntriesPhysFirst, if_pos hcan, if_pos hlt]
  have hne1 : ¬ (a + 1 = a + 6) := by omega
  have hne2 : ¬ (a + 2 = a + 6) := by omega
  have hne3 : ¬ (a + 3 = a + 6) := by omega
  have hne4 : ¬ (a + 4 = a + 6) := by omega
  have hnea : ¬ (a + 6 = a) := by omega
  constructor
  · rw [hbd]
    cases bag <;>
      simp [passEntriesPhysFirst, mapIdxFrom, useTaxi, hne1, hne2, hne3, hne4]
  · intro e he
    rw [hbd] at he
    rcases List.mem_cons.mp he with rfl | he
    · left
      rfl
    · right
      simp only [passEntriesPhysFirst, mapIdxFrom, List.mem_cons, List.not_mem_nil,
        or_false] at he
      rcases he with rfl | rfl | rfl | rfl | rfl | rfl <;>
        (cases bag <;> simp [isPassLabel, useTaxi, hne1, hne2, hne3, hne4])

/-- C4 counterexample: mobile card, rail luggage profile, Monday arrival,
seven-day trip.  The trip's first day — an airport day — is covered by the
week pass, and its displayed cost is the bare week-pass price: the
(non-zero) airport-rail transfer is NOT added on top, contradicting the
claim. -/
theorem C4_counterexample :
    (hybridBreakdown ⟨1, 7, BagOption.Backpack, 4, CardType.Mobile⟩).head? =
      some ⟨1, PassType.semaine, PASS_PRICES.SEMAINE⟩ ∧
    (⟨1, 7, BagOption.Backpack, 4, CardType.Mobile⟩ : TravelInput).arrivalDate = 1 ∧
    airportTransferCost ⟨1, 7, BagOption.Backpack, 4, CardType.Mobile⟩ ≠ 0 ∧
    PASS_PRICES.SEMAINE ≠
      PASS_PRICES.SEMAINE +
        airportTransferCost ⟨1, 7, BagOption.Backpack, 4, CardType.Mobile⟩ := by
  refine ⟨?_, ?_, ?_, ?_⟩ <;> decide

/-! The amended C4 material: every hybrid breakdown decomposes into
per-day segments and week-pass spans, and each span shows the pass price
on its first day, zero on the rest, plus the taxi add-on. -/

theorem mapIdxFrom_congr (f g : ℕ → α → β) (h : ∀ j a, f j a = g j a) :
    ∀ (i : ℕ) (l : List α), mapIdxFrom f i l = mapIdxFrom g i l := by
  intro i l
  induction l generalizing i with
  | nil => rfl
  | cons a as ih => rw [mapIdxFrom_cons, mapIdxFrom_cons, h, ih]

/-- The airport add-on a pass-covered day receives: the taxi fare exactly
when the luggage needs a taxi, the card is mobile and the day is the
trip's first or last; nothing otherwise (rail transfers are absorbed, and
the physical path never adds a transfer to a pass day). -/
def taxiAddOn (inp : TravelInput) (d : ℤ) : ℤ :=
  if inp.cardType = CardType.Mobile ∧ useTaxi inp = true ∧
      (d = inp.arrivalDate ∨ d = inp.departureDate) then
    PASS_PRICES.AIRPORT_TAXI
  else 0

/-- A segment of the hybrid breakdown is either a per-day segment — no
pass-labelled entry — or a week-pass span: every entry pass-labelled, the
first span day carrying the full week-pass price and the remaining days
zero, plus the taxi add-on for each day. -/
def SegOk (inp : TravelInput) (seg : List DailyDetail) : Prop :=
  (∀ e ∈ seg, isPassLabel e.passType = false) ∨
  ((∀ e ∈ seg, isPassLabel e.passType = true) ∧
    seg.map DailyDetail.cost =
      mapIdxFrom (fun idx d =>
        taxiAddOn inp d + (if idx = 0 then PASS_PRICES.SEMAINE else 0)) 0
        (seg.map DailyDetail.date))

theorem passEntriesPhysFirst_all_pass (inp : TravelInput) (l : List ℤ) :
    ∀ e ∈ passEntriesPhysFirst inp l, isPassLabel e.passType = true := by
  intro e he
  obtain ⟨j, d, -, rfl⟩ := mem_mapIdxFrom _ _ _ _ he
  by_cases hc : d = inp.departureDate ∧ useTaxi inp = true
  · simp [hc, isPassLabel]
  · by_cases hj : j = 0 <;> simp [hc, hj, isPassLabel]

theorem passEntriesPhysLater_all_pass (inp : TravelInput) (l : List ℤ) :
    ∀ e ∈ passEntriesPhysLater inp l, isPassLabel e.passType = true := by
  intro e he
  obtain ⟨j, d, -, rfl⟩ := mem_mapIdxFrom _ _ _ _ he
  by_cases hc : d = inp.departureDate ∧ useTaxi inp = true <;> simp [hc, isPassLabel]

theorem passEntriesMobile_all_pass (inp : TravelInput) (l : List ℤ) :
    ∀ e ∈ passEntriesMobile inp l, isPassLabel e.passType = true := by
  intro e he
  obtain ⟨j, d, -, rfl⟩ := mem_mapIdxFrom _ _ _ _ he
  by_cases hc : useTaxi inp = true ∧ (d = inp.arrivalDate ∨ d = inp.departureDate) <;>
    simp [hc, isPassLabel]

theorem passEntriesPhysFirst_map_cost (inp : TravelInput)
    (hcard : inp.cardType = CardType.Physical) (l : List ℤ) :
    (passEntriesPhysFirst inp l).map DailyDetail.cost =
      mapIdxFrom (fun idx d =>
        taxiAddOn inp d + (if idx = 0 then PASS_PRICES.SEMAINE else 0)) 0
        ((passEntriesPhysFirst inp l).map DailyDetail.date) := by
  rw [passEntriesPhysFirst_map_date, passEntriesPhysFirst, map_mapIdxFrom]
  refine mapIdxFrom_congr _ _ (fun j d => ?_) 0 l
  have hadd : taxiAddOn inp d = 0 := by
    rw [taxiAddOn, if_neg]
    intro hc
    rw [hcard] at hc
    cases hc.1
  simp [hadd]

theorem passEntriesPhysLater_map_cost (inp : TravelInput)
    (hcard : inp.cardType = CardType.Physical) (l : List ℤ) :
    (passEntriesPhysLater inp l).map DailyDetail.cost =
      mapIdxFrom (fun idx d =>
        taxiAddOn inp d + (if idx = 0 then PASS_PRICES.SEMAINE else 0)) 0
        ((passEntriesPhysLater inp l).map DailyDetail.date) := by
  rw [passEntriesPhysLater_map_date, passEntriesPhysLater, map_mapIdxFrom]
  refine mapIdxFrom_congr _ _ (fun j d => ?_) 0 l
  have hadd : taxiAddOn inp d = 0 := by
    rw [taxiAddOn, if_neg]
    intro hc
    rw [hcard] at hc
    cases hc.1
  simp [hadd]

theorem passEntriesMobile_map_cost (inp : TravelInput)
    (hcard : ¬ inp.cardType = CardType.Physical) (l : List ℤ) :
    (passEntriesMobile inp l).map DailyDetail.cost =
      mapIdxFrom (fun idx d =>
        taxiAddOn inp d + (if idx = 0 then PASS_PRICES.SEMAINE else 0)) 0
        ((passEntriesMobile inp l).map DailyDetail.date) := by
  have hmob : inp.cardType = CardType.Mobile := by
    cases hc : inp.cardType
    · rfl
    · exact absurd hc hcard
  rw [passEntriesMobile_map_date, passEntriesMobile, map_mapIdxFrom]
  refine mapIdxFrom_congr _ _ (fun j d => ?_) 0 l
  by_cases hc : useTaxi inp = true ∧ (d = inp.arrivalDate ∨ d = inp.departureDate)
  · have hadd : taxiAddOn inp d = PASS_PRICES.AIRPORT_TAXI := by
      rw [taxiAddOn, if_pos ⟨hmob, hc.1, hc.2⟩]
    simp [hc, hadd, add_comm]
  · have hadd : taxiAddOn inp d = 0 := by
      rw [taxiAddOn, if_neg]
      intro hk
      exact hc ⟨hk.2.1, hk.2.2⟩
    simp [hc, hadd]

theorem weekEntries_segments (inp : TravelInput) (b dec : Bool) (w : List ℤ) :
    ∃ wsegs : List (List DailyDetail),
      (weekEntries inp b dec w).1 = wsegs.flatten ∧ ∀ seg ∈ wsegs, SegOk inp seg := by
  rw [weekEntries]
  by_cases hcard : inp.cardType = CardType.Physical
  · rw [if_pos hcard]
    cases b with
    | true =>
      rw [if_pos rfl]
      cases w with
      | nil => exact ⟨[], by simp [weekEntriesPhysFirst], by simp⟩
      | cons w0 rest =>
        rw [weekEntriesPhysFirst]
        by_cases hg : canBuySemainePhys w0 rest = true
        · by_cases hlt : PASS_PRICES.SEMAINE + CARD_FEES.Decouverte <
              (rest.length : ℤ) * minDayCost inp
          · rw [if_pos hg, if_pos hlt]
            refine ⟨[[⟨w0, if useTaxi inp = true then PassType.airportTaxi
                else PassType.airportREReasy, airportTransferCost inp⟩],
              passEntriesPhysFirst inp rest], by simp, ?_⟩
            intro seg hseg
            rcases List.mem_cons.mp hseg with rfl | hseg
            · left
              intro e he
              rcases List.mem_singleton.mp he with rfl
              by_cases ht : useTaxi inp = true <;> simp [ht, isPassLabel]
            · rcases List.mem_singleton.mp (by simpa using hseg) with rfl
              exact Or.inr ⟨passEntriesPhysFirst_all_pass inp rest,
                passEntriesPhysFirst_map_cost inp hcard rest⟩
          · rw [if_pos hg, if_neg hlt]
            refine ⟨[(⟨w0, if useTaxi inp = true then PassType.airportTaxi
                else PassType.airportREReasy, airportTransferCost inp⟩ : DailyDetail) ::
              perDayEntriesPhys inp rest], by simp, ?_⟩
            intro seg hseg
            rcases List.mem_singleton.mp hseg with rfl
            left
            intro e he
            rcases List.mem_cons.mp he with rfl | he
            · by_cases ht : useTaxi inp = true <;> simp [ht, isPassLabel]
            · exact perDayEntriesPhys_no_pass inp rest e he
        · rw [if_neg hg]
          refine ⟨[(⟨w0, if useTaxi inp = true then PassType.airportTaxi
              else PassType.airportREReasy, airportTransferCost inp⟩ : DailyDetail) ::
            perDayEntriesPhys inp rest], by simp, ?_⟩
          intro seg hseg
          rcases List.mem_singleton.mp hseg with rfl
          left
          intro e he
          rcases List.mem_cons.mp he with rfl | he
          · by_cases ht : useTaxi inp = true <;> simp [ht, isPassLabel]
          · exact perDayEntriesPhys_no_pass inp rest e he
    | false =>
      simp only [Bool.false_eq_true, if_false]
      rw [weekEntriesPhysLater]
      by_cases hlt : (if dec then PASS_PRICES.SEMAINE
          else PASS_PRICES.SEMAINE + CARD_FEES.Decouverte) < (w.length : ℤ) * minDayCost inp
      · rw [if_pos hlt]
        refine ⟨[passEntriesPhysLater inp w], by simp, ?_⟩
        intro seg hseg
        rcases List.mem_singleton.mp hseg with rfl
        exact Or.inr ⟨passEntriesPhysLater_all_pass inp w,
          passEntriesPhysLater_map_cost inp hcard w⟩
      · rw [if_neg hlt]
        refine ⟨[perDayEntriesPhys inp w], by simp, ?_⟩
        intro seg hseg
        rcases List.mem_singleton.mp hseg with rfl
        exact Or.inl (perDayEntriesPhys_no_pass inp w)
  · rw [if_neg hcard]
    cases w with
    | nil => exact ⟨[], by simp [weekEntriesMobile], by simp⟩
    | cons w0 rest =>
      rw [weekEntriesMobile]
      by_cases hg : (canBuyMobile b w0 &&
          decide (PASS_PRICES.SEMAINE < ((w0 :: rest).length : ℤ) * minDayCost inp)) = true
      · rw [if_pos hg]
        refine ⟨[passEntriesMobile inp (w0 :: rest)], by simp, ?_⟩
        intro seg hseg
        rcases List.mem_singleton.mp hseg with rfl
        exact Or.inr ⟨passEntriesMobile_all_pass inp (w0 :: rest),
          passEntriesMobile_map_cost inp hcard (w0 :: rest)⟩
      · rw [if_neg hg]
        refine ⟨[perDayEntriesMobile inp (w0 :: rest)], by simp, ?_⟩
        intro seg hseg
        rcases List.mem_singleton.mp hseg with rfl
        exact Or.inl (perDayEntriesMobile_no_pass inp (w0 :: rest))

theorem foldl_hybridStep_segments (inp : TravelInput) (ws : List (List ℤ)) :
    ∀ st : HybridState,
      (∃ segs : List (List DailyDetail),
        st.breakdown = segs.flatten ∧ ∀ seg ∈ segs, SegOk inp seg) →
      ∃ segs : List (List DailyDetail),
        (ws.foldl (hybridStep inp false) st).breakdown = segs.flatten ∧
          ∀ seg ∈ segs, SegOk inp seg := by
  induction ws with
  | nil => intro st h; simpa using h
  | cons w ws ih =>
    intro st hst
    obtain ⟨segs, hflat, hok⟩ := hst
    rw [List.foldl_cons]
    refine ih _ ?_
    obtain ⟨wsegs, hwf, hwok⟩ := weekEntries_segments inp false st.decouverteRequired w
    refine ⟨segs ++ wsegs, ?_, ?_⟩
    · rw [hybridStep_breakdown, List.flatten_append, hflat, hwf]
    · intro seg hseg
      rcases List.mem_append.mp hseg with hseg | hseg
      · exact hok seg hseg
      · exact hwok seg hseg

theorem hybridBreakdown_segments (inp : TravelInput) :
    ∃ segs : List (List DailyDetail),
      hybridBreakdown inp = segs.flatten ∧ ∀ seg ∈ segs, SegOk inp seg := by
  rw [hybridBreakdown, hybridRun]
  cases splitWeeks (tripDays inp) with
  | nil => exact ⟨[], rfl, by simp⟩
  | cons w0 ws =>
    refine foldl_hybridStep_segments inp ws _ ?_
    obtain ⟨wsegs, hwf, hwok⟩ := weekEntries_segments inp true false w0
    refine ⟨wsegs, ?_, hwok⟩
    rw [hybridStep_breakdown, List.nil_append]
    exact hwf

theorem foldl_hybridStep_breakdown_prefix (inp : TravelInput) (ws : List (List ℤ)) :
    ∀ st : HybridState, ∃ suf : List DailyDetail,
      (ws.foldl (hybridStep inp false) st).breakdown = st.breakdown ++ suf := by
  induction ws with
  | nil => intro st; exact ⟨[], by simp⟩
  | cons w ws ih =>
    intro st
    rw [List.foldl_cons]
    obtain ⟨suf, hsuf⟩ := ih (hybridStep inp false st w)
    rw [hsuf, hybridStep_breakdown, List.append_assoc]
    exact ⟨_, rfl⟩

theorem weekEntriesPhysFirst_cons (inp : TravelInput) (w0 : ℤ) (rest : List ℤ) :
    ∃ X : List DailyDetail,
      (weekEntriesPhysFirst inp (w0 :: rest)).1 =
        (⟨w0, if useTaxi inp = true then PassType.airportTaxi else PassType.airportREReasy,
          airportTransferCost inp⟩ : DailyDetail) :: X := by
  rw [weekEntriesPhysFirst]
  by_cases hg : canBuySemainePhys w0 rest = true
  · by_cases hlt : PASS_PRICES.SEMAINE + CARD_FEES.Decouverte <
        (rest.length : ℤ) * minDayCost inp
    · rw [if_pos hg, if_pos hlt]
      exact ⟨_, rfl⟩
    · rw [if_pos hg, if_neg hlt]
      exact ⟨_, rfl⟩
  · rw [if_neg hg]
    exact ⟨_, rfl⟩

theorem hybridBreakdown_physical_head (inp : TravelInput)
    (hcard : inp.cardType = CardType.Physical) (h : 1 ≤ totalDays inp) :
    ∃ rest : List DailyDetail,
      hybridBreakdown inp =
        (⟨inp.arrivalDate,
          if useTaxi inp = true then PassType.airportTaxi else PassType.airportREReasy,
          airportTransferCost inp⟩ : DailyDetail) :: rest := by
  obtain ⟨t, ws, hsw, -⟩ := splitWeeks_tripDays_head inp h
  rw [hybridBreakdown, hybridRun, hsw]
  obtain ⟨suf, hsuf⟩ := foldl_hybridStep_breakdown_prefix inp ws
    (hybridStep inp true ⟨[], false, false⟩ (inp.arrivalDate :: t))
  rw [hsuf, hybridStep_breakdown, List.nil_append, weekEntries, if_pos hcard, if_pos rfl]
  obtain ⟨X, hX⟩ := weekEntriesPhysFirst_cons inp inp.arrivalDate t
  rw [hX]
  exact ⟨X ++ suf, rfl⟩

/-- C4 amended: for every input, the hybrid breakdown is a concatenation
of segments, each either a per-day segment (no pass-labelled entry) or a
week-pass span in which the first span day carries the full week-pass
price and the remaining days carry zero, each day plus its airport
add-on — the taxi fare exactly when the card is mobile, the luggage needs
a taxi and the day is the trip's first or last; a rail transfer on a
pass-covered day is absorbed, and the physical path adds nothing to a
pass day (a pass-covered final taxi day stays at zero).  On the physical
path the arrival day is never pass-covered: it is always the leading
airport-transfer entry. -/
theorem C4_amended_pass_week_costs (inp : TravelInput) (h : 1 ≤ totalDays inp) :
    (∃ segs : List (List DailyDetail),
      hybridBreakdown inp = segs.flatten ∧ ∀ seg ∈ segs, SegOk inp seg) ∧
    (inp.cardType = CardType.Physical →
      ∃ rest : List DailyDetail,
        hybridBreakdown inp =
          (⟨inp.arrivalDate,
            if useTaxi inp = true then PassType.airportTaxi else PassType.airportREReasy,
            airportTransferCost inp⟩ : DailyDetail) :: rest ∧
        isPassLabel (if useTaxi inp = true then PassType.airportTaxi
          else PassType.airportREReasy) = false) := by
  refine ⟨hybridBreakdown_segments inp, fun hcard => ?_⟩
  obtain ⟨rest, hres⟩ := hybridBreakdown_physical_head inp hcard h
  refine ⟨rest, hres, ?_⟩
  by_cases ht : useTaxi inp = true <;> simp [ht, isPassLabel]

/-- C4 amended-claim witness: a physical two-week taxi trip whose
breakdown holds a per-day arrival segment, a first-week pass span and a
later-week pass span ending on the trip's (taxi) final day. -/
theorem C4_amended_pass_week_costs_witness :
    1 ≤ totalDays ⟨1, 14, BagOption.MultiCarrier, 4, CardType.Physical⟩ ∧
    ((∃ segs : List (List DailyDetail),
      hybridBreakdown ⟨1, 14, BagOption.MultiCarrier, 4, CardType.Physical⟩ =
        segs.flatten ∧
      ∀ seg ∈ segs, SegOk ⟨1, 14, BagOption.MultiCarrier, 4, CardType.Physical⟩ seg) ∧
    ((⟨1, 14, BagOption.MultiCarrier, 4, CardType.Physical⟩ : TravelInput).cardType =
        CardType.Physical →
      ∃ rest : List DailyDetail,
        hybridBreakdown ⟨1, 14, BagOption.MultiCarrier, 4, CardType.Physical⟩ =
          (⟨(⟨1, 14, BagOption.MultiCarrier, 4, CardType.Physical⟩ :
              TravelInput).arrivalDate,
            if useTaxi ⟨1, 14, BagOption.MultiCarrier, 4, CardType.Physical⟩ = true then
              PassType.airportTaxi else PassType.airportREReasy,
            airportTransferCost ⟨1, 14, BagOption.MultiCarrier, 4, CardType.Physical⟩⟩ :
              DailyDetail) :: rest ∧
        isPassLabel (if useTaxi ⟨1, 14, BagOption.MultiCarrier, 4, CardType.Physical⟩ =
            true then PassType.airportTaxi else PassType.airportREReasy) = false)) :=
  ⟨by decide,
    C4_amended_pass_week_costs ⟨1, 14, BagOption.MultiCarrier, 4, CardType.Physical⟩
      (by decide)⟩

theorem mem_mapIdxFrom_get (f : ℕ → α → β) :
    ∀ (i : ℕ) (l : List α) (b : β), b ∈ mapIdxFrom f i l →
      ∃ j, ∃ hj : j < l.length, b = f (i + j) (l.get ⟨j, hj⟩) := by
  intro i l
  induction l generalizing i with
  | nil => intro b hb; simp [mapIdxFrom_nil] at hb
  | cons a as ih =>
    intro b hb
    rw [mapIdxFrom_cons] at hb
    rcases List.mem_cons.mp hb with hb | hb
    · exact ⟨0, by simp, by simpa using hb⟩
    · obtain ⟨j, hj, hbj⟩ := ih (i + 1) b hb
      refine ⟨j + 1, by simpa using Nat.succ_lt_succ hj, ?_⟩
      rw [hbj]
      congr 1
      omega

theorem tripDays_get (inp : TravelInput) (j : ℕ) (hj : j < (tripDays inp).length) :
    (tripDays inp).get ⟨j, hj⟩ = inp.arrivalDate + (j : ℤ) := by
  simp [tripDays]

theorem singleBreakdown_airport_taxi (inp : TravelInput) (htaxi : useTaxi inp = true) :
    ∀ e ∈ singleBreakdown inp,
      (e.date = inp.arrivalDate ∨ e.date = inp.departureDate) →
        e.passType = PassType.airportTaxi ∧ e.cost = PASS_PRICES.AIRPORT_TAXI := by
  intro e he
  obtain ⟨j, hj, rfl⟩ := mem_mapIdxFrom_get _ _ _ _ he
  rw [tripDays_get inp j hj]
  by_cases hc : 0 + j = 0 ∨ 0 + j = (tripDays inp).length - 1
  · rw [if_pos hc]
    intro hd
    exact ⟨by simp [htaxi], by simp [airportTransferCost, htaxi]⟩
  · rw [if_neg hc]
    intro hd
    exfalso
    have htd : totalDays inp = inp.departureDate - inp.arrivalDate + 1 := rfl
    rw [length_tripDays] at hj hc
    push_neg at hc
    simp only at hd
    rcases hd with hd | hd <;> omega

theorem dailyBreakdown_airport_taxi (inp : TravelInput) (htaxi : useTaxi inp = true) :
    ∀ e ∈ dailyBreakdown inp,
      (e.date = inp.arrivalDate ∨ e.date = inp.departureDate) →
        e.passType = PassType.airportTaxi ∧ e.cost = PASS_PRICES.AIRPORT_TAXI := by
  intro e he
  obtain ⟨j, hj, rfl⟩ := mem_mapIdxFrom_get _ _ _ _ he
  rw [tripDays_get inp j hj]
  by_cases hc : 0 + j = 0 ∨ 0 + j = (tripDays inp).length - 1
  · rw [if_pos hc]
    intro hd
    exact ⟨by simp [htaxi], by simp [airportTransferCost, htaxi]⟩
  · rw [if_neg hc]
    intro hd
    exfalso
    have htd : totalDays inp = inp.departureDate - inp.arrivalDate + 1 := rfl
    rw [length_tripDays] at hj hc
    push_neg at hc
    simp only at hd
    rcases hd with hd | hd <;> omega

/-- Pass-type labels naming the airport taxi. -/
def denotesTaxi : PassType → Bool
  | PassType.airportTaxi => true
  | PassType.taxiPlusSemaine => true
  | _ => false

/-- The per-entry property behind amended C5: no rail label anywhere; an
entry on the trip's first or last day names the taxi, and its cost
corresponds to its pass coverage — a non-pass-covered airport day (label
airport-taxi) costs exactly the taxi fare; a pass-covered airport day
(label taxi-plus-week-pass) costs the taxi fare plus its week-pass share
(the full pass price or zero) on the mobile path, and the bare share — no
taxi — on the physical path.  Which span day carries the full price is
settled by the span decomposition of `SegOk`. -/
def C5P (inp : TravelInput) (e : DailyDetail) : Prop :=
  (e.passType ≠ PassType.airportRER ∧ e.passType ≠ PassType.airportREReasy) ∧
  ((e.date = inp.arrivalDate ∨ e.date = inp.departureDate) →
    denotesTaxi e.passType = true ∧
    (e.passType = PassType.airportTaxi → e.cost = PASS_PRICES.AIRPORT_TAXI) ∧
    (e.passType = PassType.taxiPlusSemaine →
      (inp.cardType = CardType.Mobile →
        e.cost = PASS_PRICES.AIRPORT_TAXI + PASS_PRICES.SEMAINE ∨
          e.cost = PASS_PRICES.AIRPORT_TAXI) ∧
      (inp.cardType = CardType.Physical →
        e.cost = PASS_PRICES.SEMAINE ∨ e.cost = 0)))

theorem passEntriesPhysFirst_C5P (inp : TravelInput) (htaxi : useTaxi inp = true)
    (hcard : inp.cardType = CardType.Physical) (l : List ℤ)
    (hnarr : inp.arrivalDate ∉ l) :
    ∀ e ∈ passEntriesPhysFirst inp l, C5P inp e := by
  intro e he
  obtain ⟨j, d, hd, rfl⟩ := mem_mapIdxFrom _ _ _ _ he
  by_cases hc : d = inp.departureDate ∧ useTaxi inp = true
  · refine ⟨by simp [hc], fun _ => ⟨by simp [hc, denotesTaxi], by simp [hc], fun _ => ?_⟩⟩
    refine ⟨fun hm => ?_, fun _ => ?_⟩
    · rw [hcard] at hm
      cases hm
    · by_cases hj : j = 0
      · left
        simp [hc, hj]
      · right
        simp [hc, hj]
  · constructor
    · by_cases hj : j = 0 <;> simp [hc, hj]
    · intro hdate
      exfalso
      simp only [hc, if_false] at hdate
      rcases hdate with hdate | hdate
      · exact hnarr (hdate ▸ hd)
      · exact hc ⟨hdate, htaxi⟩

theorem passEntriesPhysLater_C5P (inp : TravelInput) (htaxi : useTaxi inp = true)
    (hcard : inp.cardType = CardType.Physical) (l : List ℤ)
    (hnarr : inp.arrivalDate ∉ l) :
    ∀ e ∈ passEntriesPhysLater inp l, C5P inp e := by
  intro e he
  obtain ⟨j, d, hd, rfl⟩ := mem_mapIdxFrom _ _ _ _ he
  by_cases hc : d = inp.departureDate ∧ useTaxi inp = true
  · refine ⟨by simp [hc], fun _ => ⟨by simp [hc, denotesTaxi], by simp [hc], fun _ => ?_⟩⟩
    refine ⟨fun hm => ?_, fun _ => ?_⟩
    · rw [hcard] at hm
      cases hm
    · by_cases hj : j = 0
      · left
        simp [hc, hj]
      · right
        simp [hc, hj]
  · constructor
    · simp [hc]
    · intro hdate
      exfalso
      simp only [hc, if_false] at hdate
      rcases hdate with hdate | hdate
      · exact hnarr (hdate ▸ hd)
      · exact hc ⟨hdate, htaxi⟩

theorem perDayEntriesPhys_C5P (inp : TravelInput) (htaxi : useTaxi inp = true)
    (l : List ℤ) (hnarr : inp.arrivalDate ∉ l) :
    ∀ e ∈ perDayEntriesPhys inp l, C5P inp e := by
  intro e he
  obtain ⟨d, hd, rfl⟩ := List.mem_map.mp he
  by_cases hc : d = inp.departureDate
  · exact ⟨by simp [hc, htaxi], fun _ =>
      ⟨by simp [hc, htaxi, denotesTaxi],
        fun _ => by simp [hc, htaxi, airportTransferCost],
        by simp [hc, htaxi]⟩⟩
  · constructor
    · simp [hc]
    · intro hdate
      exfalso
      simp only [hc, if_false] at hdate
      rcases hdate with hdate | hdate
      · exact hnarr (hdate ▸ hd)
      · exact hdate

theorem passEntriesMobile_C5P (inp : TravelInput) (htaxi : useTaxi inp = true)
    (hcard : ¬ inp.cardType = CardType.Physical) (l : List ℤ) :
    ∀ e ∈ passEntriesMobile inp l, C5P inp e := by
  have hmob : inp.cardType = CardType.Mobile := by
    cases hc : inp.cardType
    · rfl
    · exact absurd hc hcard
  intro e he
  obtain ⟨j, d, hd, rfl⟩ := mem_mapIdxFrom _ _ _ _ he
  by_cases hc : useTaxi inp = true ∧ (d = inp.arrivalDate ∨ d = inp.departureDate)
  · refine ⟨by simp [hc], fun _ => ⟨by simp [hc, denotesTaxi], by simp [hc], fun _ => ?_⟩⟩
    refine ⟨fun _ => ?_, fun hp => absurd hp hcard⟩
    by_cases hj : j = 0
    · left
      simp [hc, hj]
    · right
      simp [hc, hj]
  · constructor
    · simp [hc]
    · intro hdate
      exfalso
      simp only [hc, if_false] at hdate
      exact hc ⟨htaxi, hdate⟩

theorem perDayEntriesMobile_C5P (inp : TravelInput) (htaxi : useTaxi inp = true)
    (l : List ℤ) : ∀ e ∈ perDayEntriesMobile inp l, C5P inp e := by
  intro e he
  obtain ⟨d, hd, rfl⟩ := List.mem_map.mp he
  by_cases hc : d = inp.arrivalDate ∨ d = inp.departureDate
  · exact ⟨by simp [hc, htaxi], fun _ =>
      ⟨by simp [hc, htaxi, denotesTaxi],
        fun _ => by simp [hc, htaxi, airportTransferCost],
        by simp [hc, htaxi]⟩⟩
  · constructor
    · simp [hc]
    · intro hdate
      exfalso
      simp only [hc, if_false] at hdate

theorem weekEntries_C5P (inp : TravelInput) (htaxi : useTaxi inp = true) (b dec : Bool)
    (w : List ℤ) (h1 : b = true → inp.arrivalDate ∉ w.tail)
    (h2 : b = false → inp.arrivalDate ∉ w) :
    ∀ e ∈ (weekEntries inp b dec w).1, C5P inp e := by
  intro e he
  rw [weekEntries] at he
  by_cases hcard : inp.cardType = CardType.Physical
  · rw [if_pos hcard] at he
    cases b with
    | true =>
      rw [if_pos rfl] at he
      cases w with
      | nil => simp [weekEntriesPhysFirst] at he
      | cons w0 rest =>
        have hrest : inp.arrivalDate ∉ rest := h1 rfl
        rw [weekEntriesPhysFirst] at he
        by_cases hg : canBuySemainePhys w0 rest = true
        · by_cases hlt : PASS_PRICES.SEMAINE + CARD_FEES.Decouverte <
              (rest.length : ℤ) * minDayCost inp
          · rw [if_pos hg, if_pos hlt] at he
            rcases List.mem_cons.mp he with rfl | he
            · exact ⟨by simp [htaxi], fun _ =>
                ⟨by simp [htaxi, denotesTaxi],
                  fun _ => by simp [htaxi, airportTransferCost], by simp [htaxi]⟩⟩
            · exact passEntriesPhysFirst_C5P inp htaxi hcard rest hrest e he
          · rw [if_pos hg, if_neg hlt] at he
            rcases List.mem_cons.mp he with rfl | he
            · exact ⟨by simp [htaxi], fun _ =>
                ⟨by simp [htaxi, denotesTaxi],
                  fun _ => by simp [htaxi, airportTransferCost], by simp [htaxi]⟩⟩
            · exact perDayEntriesPhys_C5P inp htaxi rest hrest e he
        · rw [if_neg hg] at he
          rcases List.mem_cons.mp he with rfl | he
          · exact ⟨by simp [htaxi], fun _ =>
              ⟨by simp [htaxi, denotesTaxi],
                fun _ => by simp [htaxi, airportTransferCost], by simp [htaxi]⟩⟩
          · exact perDayEntriesPhys_C5P inp htaxi rest hrest e he
    | false =>
      simp only [Bool.false_eq_true, if_false] at he
      have hw : inp.arrivalDate ∉ w := h2 rfl
      rw [weekEntriesPhysLater] at he
      by_cases hlt : (if dec then PASS_PRICES.SEMAINE
          else PASS_PRICES.SEMAINE + CARD_FEES.Decouverte) < (w.length : ℤ) * minDayCost inp
      · rw [if_pos hlt] at he
        exact passEntriesPhysLater_C5P inp htaxi hcard w hw e he
      · rw [if_neg hlt] at he
        exact perDayEntriesPhys_C5P inp htaxi w hw e he
  · rw [if_neg hcard] at he
    cases w with
    | nil => simp [weekEntriesMobile] at he
    | cons w0 rest =>
      rw [weekEntriesMobile] at he
      by_cases hg : (canBuyMobile b w0 &&
          decide (PASS_PRICES.SEMAINE < ((w0 :: rest).length : ℤ) * minDayCost inp)) = true
      · rw [if_pos hg] at he
        exact passEntriesMobile_C5P inp htaxi hcard (w0 :: rest) e he
      · rw [if_neg hg] at he
        exact perDayEntriesMobile_C5P inp htaxi (w0 :: rest) e he

theorem hybridBreakdown_pred2 (inp : TravelInput) (P : DailyDetail → Prop)
    (w0 : List ℤ) (ws : List (List ℤ))
    (hsw : splitWeeks (tripDays inp) = w0 :: ws)
    (hfirst : ∀ e ∈ (weekEntries inp true false w0).1, P e)
    (hlater : ∀ dec w, w ∈ ws → ∀ e ∈ (weekEntries inp false dec w).1, P e) :
    ∀ e ∈ hybridBreakdown inp, P e := by
  rw [hybridBreakdown, hybridRun, hsw]
  refine foldl_hybridStep_pred inp P ws _ hlater ?_
  rw [hybridStep_breakdown]
  intro e he
  rcases List.mem_append.mp he with he | he
  · simp at he
  · exact hfirst e he

theorem splitWeeks_tripDays_arr (inp : TravelInput) (h : 1 ≤ totalDays inp) :
    ∃ t ws, splitWeeks (tripDays inp) = (inp.arrivalDate :: t) :: ws ∧
      inp.arrivalDate ∉ t ∧ ∀ w ∈ ws, inp.arrivalDate ∉ w := by
  obtain ⟨t, ws, hsw, -⟩ := splitWeeks_tripDays_head inp h
  have hflat := splitWeeks_join (tripDays inp)
  rw [hsw, List.flatten_cons] at hflat
  have hnodup := tripDays_nodup inp
  rw [← hflat] at hnodup
  simp only [List.cons_append, List.nodup_cons] at hnodup
  refine ⟨t, ws, hsw, fun hmem => hnodup.1 (List.mem_append.mpr (Or.inl hmem)), ?_⟩
  intro w hw hmem
  exact hnodup.1 (List.mem_append.mpr (Or.inr (List.mem_flatten.mpr ⟨w, hw, hmem⟩)))

theorem hybridBreakdown_C5P (inp : TravelInput) (htaxi : useTaxi inp = true)
    (h : 1 ≤ totalDays inp) : ∀ e ∈ hybridBreakdown inp, C5P inp e := by
  obtain ⟨t, ws, hsw, hnt, hnws⟩ := splitWeeks_tripDays_arr inp h
  refine hybridBreakdown_pred2 inp _ _ _ hsw ?_ ?_
  · refine weekEntries_C5P inp htaxi true false (inp.arrivalDate :: t)
      (fun _ => ?_) (fun hc => by cases hc)
    simpa using hnt
  · intro dec w hw
    exact weekEntries_C5P inp htaxi false dec w (fun hc => by cases hc)
      (fun _ => hnws w hw)

theorem singleBreakdown_no_rail (inp : TravelInput) (htaxi : useTaxi inp = true) :
    ∀ e ∈ singleBreakdown inp,
      e.passType ≠ PassType.airportRER ∧ e.passType ≠ PassType.airportREReasy := by
  intro e he
  obtain ⟨j, d, -, rfl⟩ := mem_mapIdxFrom _ _ _ _ he
  by_cases hc : j = 0 ∨ j = (tripDays inp).length - 1 <;> simp [hc, htaxi]

theorem dailyBreakdown_no_rail (inp : TravelInput) (htaxi : useTaxi inp = true) :
    ∀ e ∈ dailyBreakdown inp,
      e.passType ≠ PassType.airportRER ∧ e.passType ≠ PassType.airportREReasy := by
  intro e he
  obtain ⟨j, d, -, rfl⟩ := mem_mapIdxFrom _ _ _ _ he
  by_cases hc : j = 0 ∨ j = (tripDays inp).length - 1 <;> simp [hc, htaxi]

/-- C5 amended: with MultiCarrier luggage, in every returned strategy no
breakdown entry ever carries an airport-rail label; every entry on the
trip's first or last calendar day has a passType denoting the taxi, and
its cost corresponds to its pass coverage: an airport day not covered by
a week pass (airport-taxi label) costs exactly the taxi fare — in
particular every airport day of the pay-per-ride and day-pass strategies;
a pass-covered airport day (taxi-plus-week-pass label) costs the taxi
fare plus its week-pass share (the full pass price or zero) on the mobile
path, and the bare share, with no taxi added, on the physical path. -/
theorem C5_amended_taxi_airport_days (inp : TravelInput)
    (hbag : inp.bagOption = BagOption.MultiCarrier)
    (h : 1 ≤ totalDays inp) :
    ∀ s ∈ calculateStrategies inp,
      (∀ e ∈ s.dailyBreakdown,
        e.passType ≠ PassType.airportRER ∧ e.passType ≠ PassType.airportREReasy) ∧
      (∀ e ∈ s.dailyBreakdown,
        (e.date = inp.arrivalDate ∨ e.date = inp.departureDate) →
          denotesTaxi e.passType = true ∧
          (e.passType = PassType.airportTaxi → e.cost = PASS_PRICES.AIRPORT_TAXI) ∧
          (e.passType = PassType.taxiPlusSemaine →
            (inp.cardType = CardType.Mobile →
              e.cost = PASS_PRICES.AIRPORT_TAXI + PASS_PRICES.SEMAINE ∨
                e.cost = PASS_PRICES.AIRPORT_TAXI) ∧
            (inp.cardType = CardType.Physical →
              e.cost = PASS_PRICES.SEMAINE ∨ e.cost = 0))) ∧
      (s.name = StrategyName.single ∨ s.name = StrategyName.daily →
        ∀ e ∈ s.dailyBreakdown,
          (e.date = inp.arrivalDate ∨ e.date = inp.departureDate) →
            e.cost = PASS_PRICES.AIRPORT_TAXI) := by
  have htaxi : useTaxi inp = true := by simp [useTaxi, hbag]
  intro s hs
  rcases mem_calculateStrategies inp h s hs with rfl | rfl | rfl
  · refine ⟨singleBreakdown_no_rail inp htaxi, ?_, ?_⟩
    · intro e he hd
      obtain ⟨hpt, hcost⟩ := singleBreakdown_airport_taxi inp htaxi e he hd
      refine ⟨by rw [hpt]; rfl, fun _ => hcost, fun hc => ?_⟩
      rw [hpt] at hc
      cases hc
    · intro _ e he hd
      exact (singleBreakdown_airport_taxi inp htaxi e he hd).2
  · refine ⟨dailyBreakdown_no_rail inp htaxi, ?_, ?_⟩
    · intro e he hd
      obtain ⟨hpt, hcost⟩ := dailyBreakdown_airport_taxi inp htaxi e he hd
      refine ⟨by rw [hpt]; rfl, fun _ => hcost, fun hc => ?_⟩
      rw [hpt] at hc
      cases hc
    · intro _ e he hd
      exact (dailyBreakdown_airport_taxi inp htaxi e he hd).2
  · refine ⟨?_, ?_, ?_⟩
    · intro e he
      exact (hybridBreakdown_C5P inp htaxi h e he).1
    · intro e he
      exact (hybridBreakdown_C5P inp htaxi h e he).2
    · intro hname
      exfalso
      rcases hname with hname | hname <;> cases hname

/-- C5 counterexample: mobile card, MultiCarrier luggage, Monday arrival,
seven days.  The cheapest (first) returned strategy's first breakdown
entry is the trip's first day — an airport day — and costs the taxi fare
PLUS the week-pass price, not the taxi fare, refuting the claim's "cost
equal to the taxi fare (55.00)". -/
theorem C5_counterexample :
    ((calculateStrategies ⟨1, 7, BagOption.MultiCarrier, 4, CardType.Mobile⟩).map
      (fun s => s.dailyBreakdown.head?)).head? =
      some (some ⟨1, PassType.taxiPlusSemaine,
        PASS_PRICES.AIRPORT_TAXI + PASS_PRICES.SEMAINE⟩) ∧
    (⟨1, 7, BagOption.MultiCarrier, 4, CardType.Mobile⟩ : TravelInput).arrivalDate = 1 ∧
    PASS_PRICES.AIRPORT_TAXI + PASS_PRICES.SEMAINE ≠ PASS_PRICES.AIRPORT_TAXI := by
  refine ⟨?_, ?_, ?_⟩ <;> decide

/-- C5 amended-claim witness at the taxi seven-day Monday trip. -/
theorem C5_amended_taxi_airport_days_witness :
    (⟨1, 7, BagOption.MultiCarrier, 4, CardType.Mobile⟩ : TravelInput).bagOption =
      BagOption.MultiCarrier ∧
    1 ≤ totalDays ⟨1, 7, BagOption.MultiCarrier, 4, CardType.Mobile⟩ ∧
    ∀ s ∈ calculateStrategies ⟨1, 7, BagOption.MultiCarrier, 4, CardType.Mobile⟩,
      (∀ e ∈ s.dailyBreakdown,
        e.passType ≠ PassType.airportRER ∧ e.passType ≠ PassType.airportREReasy) ∧
      (∀ e ∈ s.dailyBreakdown,
        (e.date = (⟨1, 7, BagOption.MultiCarrier, 4, CardType.Mobile⟩ :
            TravelInput).arrivalDate ∨
         e.date = (⟨1, 7, BagOption.MultiCarrier, 4, CardType.Mobile⟩ :
            TravelInput).departureDate) →
          denotesTaxi e.passType = true ∧
          (e.passType = PassType.airportTaxi → e.cost = PASS_PRICES.AIRPORT_TAXI) ∧
          (e.passType = PassType.taxiPlusSemaine →
            ((⟨1, 7, BagOption.MultiCarrier, 4, CardType.Mobile⟩ : TravelInput).cardType =
                CardType.Mobile →
              e.cost = PASS_PRICES.AIRPORT_TAXI + PASS_PRICES.SEMAINE ∨
                e.cost = PASS_PRICES.AIRPORT_TAXI) ∧
            ((⟨1, 7, BagOption.MultiCarrier, 4, CardType.Mobile⟩ : TravelInput).cardType =
                CardType.Physical →
              e.cost = PASS_PRICES.SEMAINE ∨ e.cost = 0))) ∧
      (s.name = StrategyName.single ∨ s.name = StrategyName.daily →
        ∀ e ∈ s.dailyBreakdown,
          (e.date = (⟨1, 7, BagOption.MultiCarrier, 4, CardType.Mobile⟩ :
              TravelInput).arrivalDate ∨
           e.date = (⟨1, 7, BagOption.MultiCarrier, 4, CardType.Mobile⟩ :
              TravelInput).departureDate) →
            e.cost = PASS_PRICES.AIRPORT_TAXI) :=
  ⟨by decide, by decide,
    C5_amended_taxi_airport_days ⟨1, 7, BagOption.MultiCarrier, 4, CardType.Mobile⟩
      (by decide) (by decide)⟩

end ParisTransport
